import Mathlib

/-!
# Verification of the student-allocation simulation

Shallow embedding of the core of `allocation.py`:

* `allocation_steps` (lines 181-272): the greedy, GPA-priority allocation
  engine with optional random fallback and a per-student snapshot trace.
* the score pipeline of `generate_random_students` (lines 31-116): the
  discretized (64-level) GPA grid, Gaussian-derived level weights with a
  uniform fallback, and weighted sampling with and without replacement.

Modelling conventions:

* Python floats are modelled as exact rationals (`ℚ`); Python's decimal
  rounding `round(x, d)` is idealized as exact half-up decimal rounding
  over `ℚ` (`roundDec`).
* Python dicts are modelled as association lists in insertion order
  (`List (key × value)`); a well-formed dict has `Nodup` keys.
* The seeded Mersenne-Twister random source is modelled as the stream of
  draws it determines: a function `Nat → Nat` (for `random.choice`, which
  draws a uniform index) or `Nat → ℚ` (for `random.random()` draws in
  `[0,1)`), consumed at an explicit, threaded counter.  Seeding with the
  same seed yields the same stream, so equal streams model equal seeds.
* The strictly-positive-σ branch of `normal_pdf` (lines 55-60) evaluates
  `math.exp`/`math.sqrt`, which have no exact rational value; it is kept
  abstract as a function parameter `pdfPos`, while the `σ ≤ 0 → 0` guard
  (lines 56-57) is embedded concretely.
* Fallible paths (Python exceptions) return `Except String`.
-/

namespace SpecAlloc

/-- Category (specialisation) names are plain strings, as in the source. -/
abbrev Cat := String

/-- A Python dict `{spec_name: seat_count}` in insertion order. -/
abbrev Caps := List (Cat × Int)

/-- `caps.get(spec, 0)`: value of the first binding of `s`, defaulting to 0
(`allocation.py` line 244). -/
def capsGet (caps : Caps) (s : Cat) : Int :=
  (caps.lookup s).getD 0

/-- `caps[spec] -= 1`: decrement the binding of `s` in place
(`allocation.py` lines 245, 258). -/
def capsDec (caps : Caps) (s : Cat) : Caps :=
  caps.map (fun p => if p.1 = s then (p.1, p.2 - 1) else p)

/-- One row of the input DataFrame: student id, GPA, and the values of the
(pref-index-ordered) `pref1, pref2, ...` columns, `none` standing for a
missing (`NaN`) cell. -/
structure Student where
  id : Nat
  gpa : ℚ
  prefs : List (Option Cat)
deriving Repr, DecidableEq

/-- The student's effective preference list: the pref columns truncated to
`max_prefs` (`allocation.py` line 232) with missing values dropped
(line 238). -/
def effPrefs (maxPrefs : Nat) (s : Student) : List Cat :=
  (s.prefs.take maxPrefs).filterMap id

/-- The snapshot dict appended after each student (`allocation.py`
lines 263-270). -/
structure Snapshot where
  student_id : Nat
  gpa : ℚ
  prefs : List Cat
  chosen : Option Cat
  remaining : Caps
  assignments : List (Nat × Option Cat)
deriving Repr, DecidableEq

/-- Mutable state of one allocation run: the caller's `capacity_dict`
(untouched after the initial `.copy()` on line 226), the working copy
`caps`, the assignment dict, and the position in the random stream. -/
structure AllocState where
  capacity_dict : Caps
  caps : Caps
  assignments : List (Nat × Option Cat)
  rndIdx : Nat
deriving Repr, DecidableEq

/-- Python dict assignment `d[k] = v`: replace the binding in place if `k`
is present, else append it. -/
def dictInsert (k : Nat) (v : Option Cat) :
    List (Nat × Option Cat) → List (Nat × Option Cat)
  | [] => [(k, v)]
  | p :: ps => if p.1 = k then (k, v) :: ps else p :: dictInsert k v ps

/-- `available_specs` (`allocation.py` lines 252-255): categories with
remaining capacity that the student did not list, in dict order. -/
def availableSpecs (caps : Caps) (prefs : List Cat) : List Cat :=
  (caps.filter (fun p => decide (0 < p.2 ∧ p.1 ∉ prefs))).map Prod.fst

/-- Processing of one student (the body of the loop at `allocation.py`
lines 234-270).  `random.choice(seq)` is modelled as indexing by the next
draw of the stream reduced mod the length. -/
def allocStep (rng : Nat → Nat) (maxPrefs : Nat) (fallback : Bool)
    (st : AllocState) (s : Student) : AllocState × Snapshot :=
  let prefs := effPrefs maxPrefs s
  match prefs.find? (fun p => decide (0 < capsGet st.caps p)) with
  | some c =>
      let caps' := capsDec st.caps c
      let asg' := dictInsert s.id (some c) st.assignments
      ({ st with caps := caps', assignments := asg' },
       ⟨s.id, s.gpa, prefs, some c, caps', asg'⟩)
  | none =>
      if fallback then
        match availableSpecs st.caps prefs with
        | [] =>
            let asg' := dictInsert s.id none st.assignments
            ({ st with assignments := asg' },
             ⟨s.id, s.gpa, prefs, none, st.caps, asg'⟩)
        | a :: rest =>
            let c := (a :: rest).get
              ⟨rng st.rndIdx % (a :: rest).length,
               Nat.mod_lt _ (Nat.succ_pos _)⟩
            let caps' := capsDec st.caps c
            let asg' := dictInsert s.id (some c) st.assignments
            ({ st with caps := caps', assignments := asg', rndIdx := st.rndIdx + 1 },
             ⟨s.id, s.gpa, prefs, some c, caps', asg'⟩)
      else
        let asg' := dictInsert s.id none st.assignments
        ({ st with assignments := asg' },
         ⟨s.id, s.gpa, prefs, none, st.caps, asg'⟩)

/-- The per-student loop (`allocation.py` line 234), returning the final
state together with the snapshot list. -/
def allocFold (rng : Nat → Nat) (maxPrefs : Nat) (fallback : Bool) :
    AllocState → List Student → AllocState × List Snapshot
  | st, [] => (st, [])
  | st, s :: rest =>
      let r := allocStep rng maxPrefs fallback st s
      let rest' := allocFold rng maxPrefs fallback r.1 rest
      (rest'.1, r.2 :: rest'.2)

/-- GPA-descending order on students (`sort_values("gpa", ascending=False)`,
`allocation.py` line 223); ties are left in input order. -/
def gpaGe (a b : Student) : Prop := b.gpa ≤ a.gpa

instance : DecidableRel gpaGe := fun a b => inferInstanceAs (Decidable (b.gpa ≤ a.gpa))

instance : IsTotal Student gpaGe := ⟨fun a b => (le_total b.gpa a.gpa).imp id id⟩

instance : IsTrans Student gpaGe := ⟨fun _ _ _ h h' => le_trans h' h⟩

/-- `df.sort_values("gpa", ascending=False)` (`allocation.py` line 223). -/
def sortByGpaDesc (l : List Student) : List Student := List.insertionSort gpaGe l

/-! ## Population sampler: the GPA pipeline of `generate_random_students` -/

/-- Exact half-up rounding of `q` to `d` decimal places
(`⌊q·10^d + 1/2⌋ / 10^d`), the `ℚ` idealization of Python's
`round(q, d)`. -/
def roundDec (d : Nat) (q : ℚ) : ℚ :=
  ((⌊q * (10 : ℚ) ^ d + 1 / 2⌋ : ℤ) : ℚ) / (10 : ℚ) ^ d

/-- `normal_pdf` (`allocation.py` lines 55-60): `0` when `sigma ≤ 0`;
otherwise the Gaussian density, whose transcendental value (`math.exp`,
`math.sqrt`) is supplied by the abstract parameter `pdfPos`. -/
def normal_pdf (pdfPos : ℚ → ℚ → ℚ → ℚ) (x mu sigma : ℚ) : ℚ :=
  if sigma ≤ 0 then 0 else pdfPos x mu sigma

/-- `step = (gpa_max - gpa_min) / 63.0` (line 39). -/
def gpaStep (gmin gmax : ℚ) : ℚ := (gmax - gmin) / 63

/-- The 64 grid levels `round(gpa_min + i * step, 6)` (line 41). -/
def gridLevels (gmin gmax : ℚ) : List ℚ :=
  (List.range 64).map (fun i : Nat => roundDec 6 (gmin + (i : ℚ) * gpaStep gmin gmax))

/-- `allowed_gpas` after the range filter (line 44). -/
def allowedGpas0 (gmin gmax : ℚ) : List ℚ :=
  (gridLevels gmin gmax).filter (fun g => decide (gmin ≤ g ∧ g ≤ gmax))

/-- Weights and normalized probabilities over the grid (lines 62-70),
including the uniform fallback when the density sums to `≤ 0`. -/
def gridProbs (pdfPos : ℚ → ℚ → ℚ → ℚ) (mean std : ℚ)
    (allowed : List ℚ) : List ℚ :=
  let weights := allowed.map (fun g => normal_pdf pdfPos g mean std)
  let total_w := weights.sum
  let weights' := if total_w ≤ 0 then weights.map (fun _ => (1 : ℚ)) else weights
  let total' := weights'.sum
  weights'.map (fun w => w / total')

/-- Running sums of `l` starting from `a` (helper for `accumulate`). -/
def accFrom (a : ℚ) : List ℚ → List ℚ
  | [] => []
  | x :: xs => (a + x) :: accFrom (a + x) xs

/-- `itertools.accumulate`: running sums. -/
def accumulate (l : List ℚ) : List ℚ := accFrom 0 l

/-- The loop of `bisect.bisect_right(a, x, lo, hi)`; the fuel `hi - lo`
bounds the number of iterations, each of which strictly shrinks the
interval. -/
def bisectAux (a : List ℚ) (x : ℚ) : Nat → Nat → Nat → Nat
  | 0, lo, _ => lo
  | fuel + 1, lo, hi =>
      if lo < hi then
        let mid := (lo + hi) / 2
        if x < a.getD mid 0 then bisectAux a x fuel lo mid
        else bisectAux a x fuel (mid + 1) hi
      else lo

/-- `bisect.bisect_right(a, x, lo, hi)`. -/
def bisectRight (a : List ℚ) (x : ℚ) (lo hi : Nat) : Nat :=
  bisectAux a x (hi - lo) lo hi

/-- `random.choices(population, weights, k=k)` (CPython `random.py`):
`k` independent cumulative-weight draws located by `bisect_right` over
`[0, n-1]`; its two `ValueError`s (and the `IndexError` reachable on an
empty population) become `Except.error`.  Returns the drawn values and the
advanced stream position. -/
def randomChoices (rng : Nat → ℚ) (ridx : Nat) (population : List ℚ)
    (weights : List ℚ) (k : Nat) : Except String (List ℚ × Nat) :=
  let n := population.length
  let cum := accumulate weights
  if cum.length ≠ n then
    .error "ValueError: The number of weights does not match the population"
  else
    match cum.getLast? with
    | none => .error "IndexError: list index out of range"
    | some total =>
      if total ≤ 0 then
        .error "ValueError: Total of weights must be greater than zero"
      else
        .ok ((List.range k).map (fun j =>
          population.getD (bisectRight cum (rng (ridx + j) * total) 0 (n - 1)) 0),
          ridx + k)

/-- The scan of `weighted_pop` (lines 94-98): index of the first cumulative
sum reaching `r`. -/
def weightedPopAux (r : ℚ) : ℚ → List ℚ → Option Nat
  | _, [] => none
  | cum, p :: ps =>
      if r ≤ cum + p then some 0 else (weightedPopAux r (cum + p) ps).map (· + 1)

/-- `weighted_pop` (lines 92-99): scan the cumulative sums for the drawn
`r`; if the loop falls through, return `len - 1` (which is `-1` for an
empty list). -/
def weighted_pop (r : ℚ) (probs : List ℚ) : Int :=
  match weightedPopAux r 0 probs with
  | some i => (i : Int)
  | none => (probs.length : Int) - 1

/-- `list.pop(i)` with Python's negative-index convention; `IndexError`
becomes `Except.error`. -/
def pyPop (l : List ℚ) (i : Int) : Except String (ℚ × List ℚ) :=
  let j := if i < 0 then i + l.length else i
  if h : 0 ≤ j ∧ j.toNat < l.length then
    .ok (l.get ⟨j.toNat, h.2⟩, l.eraseIdx j.toNat)
  else .error "IndexError: pop index out of range"

/-- The without-replacement loop (lines 101-108): draw an index with
`weighted_pop`, pop the chosen value and its probability, renormalize when
the remaining mass is positive. -/
def samplingLoop (rng : Nat → ℚ) : Nat → Nat → List ℚ → List ℚ → List ℚ →
    Except String (List ℚ × Nat)
  | 0, ridx, _, _, acc => .ok (acc.reverse, ridx)
  | k + 1, ridx, choices, choiceProbs, acc => do
      let idx := weighted_pop (rng ridx) choiceProbs
      let (g, choices') ← pyPop choices idx
      let (_, probs') ← pyPop choiceProbs idx
      let s := probs'.sum
      let probs'' := if 0 < s then probs'.map (fun p => p / s) else probs'
      samplingLoop rng k (ridx + 1) choices' probs'' (g :: acc)

/-- `random.uniform(a, b) = a + (b - a) * random()`. -/
def pyUniform (u a b : ℚ) : ℚ := a + (b - a) * u

/-- Modelled on `generate_random_students` (`allocation.py` lines 31-116,
160, 167), restricted to the GPA pipeline: grid construction, Gaussian
level weights with uniform fallback, the empty-grid continuous fallback
(lines 72-74), the two sampling modes, per-student storage rounding
(line 116), and the final descending sort (line 167).  Preference sampling
(lines 118-159) is omitted: no claim concerns it, and in the source all
GPA draws precede the preference draws in the random stream.  Returns the
stored `gpa` column. -/
def generate_gpas (pdfPos : ℚ → ℚ → ℚ → ℚ) (rng : Nat → ℚ)
    (n_students : Nat) (gpa_min gpa_max : ℚ) (mean? std? : Option ℚ)
    (sampling_with_replacement : Bool) : Except String (List ℚ) := do
  let allowed0 := allowedGpas0 gpa_min gpa_max
  let mean := mean?.getD ((gpa_min + gpa_max) / 2)
  let std := std?.getD ((gpa_max - gpa_min) / 6)
  let probs := gridProbs pdfPos mean std allowed0
  let allowed := match allowed0.isEmpty with
    | true => (List.range (max 1 n_students)).map
        (fun j => roundDec 3 (pyUniform (rng j) gpa_min gpa_max))
    | false => allowed0
  let ridx0 := match allowed0.isEmpty with
    | true => max 1 n_students
    | false => 0
  let gpas ←
    match sampling_with_replacement with
    | true => do
      let (gpas, _) ← randomChoices rng ridx0 allowed probs n_students
      pure gpas
    | false => do
      let (gpas1, ridx1) ←
        samplingLoop rng (min n_students allowed.length) ridx0 allowed probs []
      if gpas1.length < n_students then do
        let (extras, _) ←
          randomChoices rng ridx1 allowed probs (n_students - gpas1.length)
        pure (gpas1 ++ extras)
      else pure gpas1
  let stored := (gpas.take n_students).map (roundDec 3)
  pure (List.insertionSort (fun a b : ℚ => b ≤ a) stored)

/-- The score grid exactly as the grid-membership claim words it: the 64
levels `min + i * (max - min) / 63`, rounded to 3 decimal places. -/
def claimGrid (gmin gmax : ℚ) : List ℚ :=
  (List.range 64).map (fun i : Nat => roundDec 3 (gmin + (i : ℚ) * gpaStep gmin gmax))

/-- The stored-score grid the code realizes: the computed (6-decimal
rounded) grid levels, rounded to 3 decimals as stored. -/
def storedGrid (gmin gmax : ℚ) : List ℚ :=
  (gridLevels gmin gmax).map (roundDec 3)

/-- The input DataFrame: whether the `id` and `gpa` columns exist, and the
rows. -/
structure DataFrame where
  has_id : Bool
  has_gpa : Bool
  rows : List Student
deriving Repr, DecidableEq

/-- Initial run state: the working capacity dict is a copy of the caller's
(`allocation.py` lines 226-228). -/
def initState (capacity_dict : Caps) : AllocState :=
  { capacity_dict := capacity_dict, caps := capacity_dict,
    assignments := [], rndIdx := 0 }

/-- `allocation_steps` (`allocation.py` lines 181-272).  The seed argument
is represented by the random stream it determines.  The `ValueError` of
line 220 becomes `Except.error`. -/
def allocation_steps (df : DataFrame) (capacity_dict : Caps)
    (max_prefs : Nat) (random_fallback : Bool) (rng : Nat → Nat) :
    Except String (List Snapshot) :=
  if df.has_id && df.has_gpa then
    .ok (allocFold rng max_prefs random_fallback (initState capacity_dict)
          (sortByGpaDesc df.rows)).2
  else
    .error "DataFrame must contain id and gpa columns."

/-- A one-student population used by concrete instantiations. -/
def stuR : Student := ⟨1, 5, [some "R"]⟩

/-! ## Association-list lemmas -/

theorem lookup_capsDec (caps : Caps) (c d : Cat) :
    (capsDec caps c).lookup d
      = (caps.lookup d).map (fun v => if d = c then v - 1 else v) := by
  induction caps with
  | nil => rfl
  | cons p ps ih =>
    rcases p with ⟨k, v⟩
    by_cases hdk : d = k
    · subst hdk
      by_cases hdc : d = c <;>
        simp [capsDec, List.lookup_cons, hdc]
    · have hbeq : (d == k) = false := beq_eq_false_iff_ne.mpr hdk
      by_cases hkc : k = c
      · subst hkc
        simpa [capsDec, List.lookup_cons, hbeq] using ih
      · simpa [capsDec, List.lookup_cons, hbeq, hkc] using ih

theorem capsGet_pos_lookup {caps : Caps} {c : Cat} (h : 0 < capsGet caps c) :
    caps.lookup c = some (capsGet caps c) := by
  unfold capsGet at *
  cases hl : caps.lookup c with
  | none => rw [hl] at h; simp at h
  | some v => rfl

theorem capsGet_pos_mem {caps : Caps} {c : Cat} (h : 0 < capsGet caps c) :
    c ∈ caps.map Prod.fst := by
  have := capsGet_pos_lookup h
  by_contra hmem
  have : caps.lookup c = none := by
    rw [List.lookup_eq_none_iff]
    intro p hp
    simp only [bne_iff_ne]
    intro hc
    exact hmem (hc ▸ List.mem_map_of_mem Prod.fst hp)
  simp_all

theorem capsGet_eq_zero_of_not_mem {caps : Caps} {c : Cat}
    (h : c ∉ caps.map Prod.fst) : capsGet caps c = 0 := by
  unfold capsGet
  have : caps.lookup c = none := by
    rw [List.lookup_eq_none_iff]
    intro p hp
    simp only [bne_iff_ne]
    intro hc
    exact h (hc ▸ List.mem_map_of_mem Prod.fst hp)
  simp [this]

theorem capsGet_capsDec_self {caps : Caps} {c : Cat}
    (h : 0 < capsGet caps c) :
    capsGet (capsDec caps c) c = capsGet caps c - 1 := by
  have hl := capsGet_pos_lookup h
  unfold capsGet
  rw [lookup_capsDec, hl]
  simp [capsGet]

theorem capsGet_capsDec_ne (caps : Caps) {c d : Cat} (h : d ≠ c) :
    capsGet (capsDec caps c) d = capsGet caps d := by
  unfold capsGet
  rw [lookup_capsDec]
  cases caps.lookup d <;> simp [h]

theorem capsDec_keys (caps : Caps) (c : Cat) :
    (capsDec caps c).map Prod.fst = caps.map Prod.fst := by
  induction caps with
  | nil => rfl
  | cons p ps ih =>
    by_cases h : p.1 = c <;> simp_all [capsDec]

theorem dictInsert_of_not_mem {k : Nat} {v : Option Cat}
    {m : List (Nat × Option Cat)} (h : k ∉ m.map Prod.fst) :
    dictInsert k v m = m ++ [(k, v)] := by
  induction m with
  | nil => rfl
  | cons p ps ih =>
    simp only [List.map_cons, List.mem_cons] at h
    push_neg at h
    have h1 : ¬(p.1 = k) := fun he => h.1 he.symm
    simp [dictInsert, h1, ih h.2]

theorem lookup_append_left {α β : Type} [BEq α] {l ext : List (α × β)}
    {k : α} {v : β} (h : l.lookup k = some v) :
    (l ++ ext).lookup k = some v := by
  induction l with
  | nil => simp at h
  | cons p ps ih =>
    rcases p with ⟨k', v'⟩
    rw [List.cons_append, List.lookup_cons] at *
    cases hkk : k == k' <;> simp_all

theorem availableSpecs_subset_keys (caps : Caps) (prefs : List Cat) :
    ∀ c ∈ availableSpecs caps prefs, c ∈ caps.map Prod.fst := by
  intro c hc
  unfold availableSpecs at hc
  rcases List.mem_map.mp hc with ⟨p, hp, rfl⟩
  exact List.mem_map_of_mem Prod.fst (List.mem_of_mem_filter hp)

theorem mem_availableSpecs {caps : Caps} {prefs : List Cat} {c : Cat}
    (hwf : (caps.map Prod.fst).Nodup) :
    c ∈ availableSpecs caps prefs ↔ 0 < capsGet caps c ∧ c ∉ prefs := by
  induction caps with
  | nil => simp [availableSpecs, capsGet]
  | cons p ps ih =>
    rcases p with ⟨k, v⟩
    simp only [List.map_cons, List.nodup_cons] at hwf
    by_cases hck : c = k
    · subst hck
      have hnotail : c ∉ availableSpecs ps prefs := fun hmem =>
        hwf.1 (availableSpecs_subset_keys ps prefs c hmem)
      by_cases hkeep : 0 < v ∧ c ∉ prefs
      · simp [availableSpecs, capsGet, List.lookup_cons, hkeep, hkeep.1, hkeep.2]
      · have : capsGet ((c, v) :: ps) c = v := by simp [capsGet]
        constructor
        · intro hmem
          unfold availableSpecs at hmem
          rw [List.filter_cons] at hmem
          simp only [decide_eq_true_eq, hkeep, if_false] at hmem
          exact absurd hmem hnotail
        · intro hpos
          rw [this] at hpos
          exact absurd ⟨hpos.1, hpos.2⟩ hkeep
    · have tail_iff := ih hwf.2
      have hbeq : (c == k) = false := beq_eq_false_iff_ne.mpr hck
      have hget : capsGet ((k, v) :: ps) c = capsGet ps c := by
        simp [capsGet, List.lookup_cons, hbeq]
      rw [hget, ← tail_iff]
      unfold availableSpecs
      rw [List.filter_cons]
      by_cases hkeep : 0 < v ∧ k ∉ prefs <;>
        simp [hkeep, availableSpecs, hck]

theorem find?_append_first {p : Cat → Bool} {l₁ l₂ : List Cat} {c : Cat}
    (h₁ : ∀ x ∈ l₁, p x = false) (hc : p c = true) :
    (l₁ ++ c :: l₂).find? p = some c := by
  induction l₁ with
  | nil => simpa using List.find?_cons_of_pos l₂ hc
  | cons a l ih =>
    rw [List.cons_append,
      List.find?_cons_of_neg _ (by simp [h₁ a (List.mem_cons_self a l)])]
    exact ih fun x hx => h₁ x (List.mem_cons_of_mem a hx)

/-! ## Unfolding lemmas for `allocStep` -/

theorem allocStep_primary {rng : Nat → Nat} {mp : Nat} {fb : Bool}
    {st : AllocState} {s : Student} {c : Cat}
    (hfind : (effPrefs mp s).find? (fun p => decide (0 < capsGet st.caps p))
      = some c) :
    allocStep rng mp fb st s =
      (⟨st.capacity_dict, capsDec st.caps c,
        dictInsert s.id (some c) st.assignments, st.rndIdx⟩,
       ⟨s.id, s.gpa, effPrefs mp s, some c, capsDec st.caps c,
        dictInsert s.id (some c) st.assignments⟩) := by
  simp only [allocStep]
  rw [hfind]

theorem allocStep_nofb {rng : Nat → Nat} {mp : Nat}
    {st : AllocState} {s : Student}
    (hfind : (effPrefs mp s).find? (fun p => decide (0 < capsGet st.caps p))
      = none) :
    allocStep rng mp false st s =
      (⟨st.capacity_dict, st.caps,
        dictInsert s.id none st.assignments, st.rndIdx⟩,
       ⟨s.id, s.gpa, effPrefs mp s, none, st.caps,
        dictInsert s.id none st.assignments⟩) := by
  simp only [allocStep]
  rw [hfind]
  rfl

theorem allocStep_fb_nil {rng : Nat → Nat} {mp : Nat}
    {st : AllocState} {s : Student}
    (hfind : (effPrefs mp s).find? (fun p => decide (0 < capsGet st.caps p))
      = none)
    (havail : availableSpecs st.caps (effPrefs mp s) = []) :
    allocStep rng mp true st s =
      (⟨st.capacity_dict, st.caps,
        dictInsert s.id none st.assignments, st.rndIdx⟩,
       ⟨s.id, s.gpa, effPrefs mp s, none, st.caps,
        dictInsert s.id none st.assignments⟩) := by
  simp only [allocStep]
  rw [hfind, havail]
  rfl

theorem allocStep_fb_cons {rng : Nat → Nat} {mp : Nat}
    {st : AllocState} {s : Student} {a : Cat} {rest : List Cat}
    (hfind : (effPrefs mp s).find? (fun p => decide (0 < capsGet st.caps p))
      = none)
    (havail : availableSpecs st.caps (effPrefs mp s) = a :: rest) :
    allocStep rng mp true st s =
      (⟨st.capacity_dict,
        capsDec st.caps ((a :: rest).get
          ⟨rng st.rndIdx % (a :: rest).length, Nat.mod_lt _ (Nat.succ_pos _)⟩),
        dictInsert s.id (some ((a :: rest).get
          ⟨rng st.rndIdx % (a :: rest).length, Nat.mod_lt _ (Nat.succ_pos _)⟩))
          st.assignments,
        st.rndIdx + 1⟩,
       ⟨s.id, s.gpa, effPrefs mp s,
        some ((a :: rest).get
          ⟨rng st.rndIdx % (a :: rest).length, Nat.mod_lt _ (Nat.succ_pos _)⟩),
        capsDec st.caps ((a :: rest).get
          ⟨rng st.rndIdx % (a :: rest).length, Nat.mod_lt _ (Nat.succ_pos _)⟩),
        dictInsert s.id (some ((a :: rest).get
          ⟨rng st.rndIdx % (a :: rest).length, Nat.mod_lt _ (Nat.succ_pos _)⟩))
          st.assignments⟩) := by
  simp only [allocStep]
  rw [hfind, havail]
  rfl

theorem allocStep_fields (rng : Nat → Nat) (mp : Nat) (fb : Bool)
    (st : AllocState) (s : Student) :
    (allocStep rng mp fb st s).2.student_id = s.id
    ∧ (allocStep rng mp fb st s).2.gpa = s.gpa
    ∧ (allocStep rng mp fb st s).2.prefs = effPrefs mp s
    ∧ (allocStep rng mp fb st s).2.remaining = (allocStep rng mp fb st s).1.caps
    ∧ (allocStep rng mp fb st s).2.assignments
        = (allocStep rng mp fb st s).1.assignments
    ∧ (allocStep rng mp fb st s).1.capacity_dict = st.capacity_dict
    ∧ (allocStep rng mp fb st s).1.caps.map Prod.fst = st.caps.map Prod.fst
    ∧ (allocStep rng mp fb st s).1.assignments
        = dictInsert s.id ((allocStep rng mp fb st s).2.chosen) st.assignments := by
  cases hfind : (effPrefs mp s).find? (fun p => decide (0 < capsGet st.caps p)) with
  | some c =>
    rw [allocStep_primary hfind]
    exact ⟨rfl, rfl, rfl, rfl, rfl, rfl, capsDec_keys _ _, rfl⟩
  | none =>
    cases fb with
    | false =>
      rw [allocStep_nofb hfind]
      exact ⟨rfl, rfl, rfl, rfl, rfl, rfl, rfl, rfl⟩
    | true =>
      cases havail : availableSpecs st.caps (effPrefs mp s) with
      | nil =>
        rw [allocStep_fb_nil hfind havail]
        exact ⟨rfl, rfl, rfl, rfl, rfl, rfl, rfl, rfl⟩
      | cons a rest =>
        rw [allocStep_fb_cons hfind havail]
        exact ⟨rfl, rfl, rfl, rfl, rfl, rfl, capsDec_keys _ _, rfl⟩

theorem allocStep_chosen_caps (rng : Nat → Nat) (mp : Nat) (fb : Bool)
    (st : AllocState) (s : Student)
    (hwf : (st.caps.map Prod.fst).Nodup) :
    ((allocStep rng mp fb st s).2.chosen = none
        ∧ (allocStep rng mp fb st s).1.caps = st.caps)
    ∨ (∃ c, (allocStep rng mp fb st s).2.chosen = some c
        ∧ 0 < capsGet st.caps c
        ∧ (allocStep rng mp fb st s).1.caps = capsDec st.caps c) := by
  cases hfind : (effPrefs mp s).find? (fun p => decide (0 < capsGet st.caps p)) with
  | some c =>
    right
    refine ⟨c, ?_, ?_, ?_⟩
    · rw [allocStep_primary hfind]
    · have h1 := List.find?_some hfind
      simp only [decide_eq_true_eq] at h1
      exact h1
    · rw [allocStep_primary hfind]
  | none =>
    cases fb with
    | false => left; rw [allocStep_nofb hfind]; exact ⟨rfl, rfl⟩
    | true =>
      cases havail : availableSpecs st.caps (effPrefs mp s) with
      | nil => left; rw [allocStep_fb_nil hfind havail]; exact ⟨rfl, rfl⟩
      | cons a rest =>
        right
        refine ⟨(a :: rest).get
          ⟨rng st.rndIdx % (a :: rest).length, Nat.mod_lt _ (Nat.succ_pos _)⟩,
          ?_, ?_, ?_⟩
        · rw [allocStep_fb_cons hfind havail]
        · have hmem : (a :: rest).get
              ⟨rng st.rndIdx % (a :: rest).length, Nat.mod_lt _ (Nat.succ_pos _)⟩
              ∈ availableSpecs st.caps (effPrefs mp s) := by
            rw [havail]; exact List.get_mem _ _ _
          exact ((mem_availableSpecs hwf).mp hmem).1
        · rw [allocStep_fb_cons hfind havail]

theorem allocStep_capsGet (rng : Nat → Nat) (mp : Nat) (fb : Bool)
    (st : AllocState) (s : Student)
    (hwf : (st.caps.map Prod.fst).Nodup) (cat : Cat) :
    capsGet (allocStep rng mp fb st s).1.caps cat
      = capsGet st.caps cat
        - (if (allocStep rng mp fb st s).2.chosen = some cat then 1 else 0) := by
  rcases allocStep_chosen_caps rng mp fb st s hwf with ⟨hch, hcaps⟩ | ⟨c, hch, hpos, hcaps⟩
  · simp [hch, hcaps]
  · rw [hcaps, hch]
    by_cases hc : c = cat
    · subst hc; simp [capsGet_capsDec_self hpos]
    · have h2 : cat ≠ c := fun hh => hc hh.symm
      simp [capsGet_capsDec_ne _ h2, hc]

/-! ## The claims -/

/-- **C1** (primary rule): for every processed student, the engine scans the
effective preference list in order and assigns the student to the first
category with remaining capacity `> 0` (here: the effective list splits as
`l₁ ++ c :: l₂` with every earlier entry lacking capacity), decrements
exactly that category's capacity by 1, consumes no randomness, and the
chosen category is a key of the capacity map; a category absent from the
capacity map has capacity 0 and so is skipped without error; and in the
concrete two-student scenario with a shared two-category preference list
and capacity 1 each, the higher-score student receives the first category
and the lower-score student the second. -/
theorem C1_primary_rule (rng : Nat → Nat) (mp : Nat) (fb : Bool)
    (st : AllocState) (s : Student) (l₁ l₂ : List Cat) (c : Cat)
    (hsplit : effPrefs mp s = l₁ ++ c :: l₂)
    (hbefore : ∀ d ∈ l₁, capsGet st.caps d ≤ 0)
    (hc : 0 < capsGet st.caps c) :
    ((allocStep rng mp fb st s).2.chosen = some c
      ∧ (allocStep rng mp fb st s).1.caps = capsDec st.caps c
      ∧ capsGet (allocStep rng mp fb st s).1.caps c = capsGet st.caps c - 1
      ∧ (∀ d, d ≠ c →
          capsGet (allocStep rng mp fb st s).1.caps d = capsGet st.caps d)
      ∧ (allocStep rng mp fb st s).1.rndIdx = st.rndIdx
      ∧ c ∈ st.caps.map Prod.fst)
    ∧ (∀ cat, cat ∉ st.caps.map Prod.fst → capsGet st.caps cat = 0)
    ∧ (allocation_steps
        ⟨true, true, [⟨2, 8, [some "CatA", some "CatB"]⟩,
                      ⟨1, 9, [some "CatA", some "CatB"]⟩]⟩
        [("CatA", 1), ("CatB", 1)] 5 false (fun _ => 0)).map
          (fun snaps => snaps.map (fun sn => (sn.student_id, sn.chosen)))
        = Except.ok [(1, some "CatA"), (2, some "CatB")] := by
  have hfind : (effPrefs mp s).find? (fun p => decide (0 < capsGet st.caps p))
      = some c := by
    rw [hsplit]
    refine find?_append_first (fun x hx => ?_) (decide_eq_true hc)
    exact decide_eq_false (not_lt.mpr (hbefore x hx))
  refine ⟨⟨?_, ?_, ?_, fun d hd => ?_, ?_, capsGet_pos_mem hc⟩,
    fun cat h => capsGet_eq_zero_of_not_mem h, by rfl⟩
  · rw [allocStep_primary hfind]
  · rw [allocStep_primary hfind]
  · rw [allocStep_primary hfind]; exact capsGet_capsDec_self hc
  · rw [allocStep_primary hfind]; exact capsGet_capsDec_ne _ hd
  · rw [allocStep_primary hfind]

/-- Witness for C1 at a concrete input. -/
theorem C1_primary_rule_witness :
    (allocStep (fun _ => 0) 5 false ⟨[("W", 2)], [("W", 2)], [], 0⟩
      ⟨7, 5, [some "W"]⟩).2.chosen = some "W" :=
  (C1_primary_rule (fun _ => 0) 5 false ⟨[("W", 2)], [("W", 2)], [], 0⟩
    ⟨7, 5, [some "W"]⟩ [] [] "W" rfl (by simp) (by decide)).1.1

theorem allocFold_cons (rng : Nat → Nat) (mp : Nat) (fb : Bool)
    (st : AllocState) (s : Student) (rest : List Student) :
    allocFold rng mp fb st (s :: rest)
      = ((allocFold rng mp fb (allocStep rng mp fb st s).1 rest).1,
         (allocStep rng mp fb st s).2
           :: (allocFold rng mp fb (allocStep rng mp fb st s).1 rest).2) := rfl

theorem allocFold_length (rng : Nat → Nat) (mp : Nat) (fb : Bool)
    (l : List Student) : ∀ st : AllocState,
    (allocFold rng mp fb st l).2.length = l.length := by
  induction l with
  | nil => intro st; rfl
  | cons s rest ih =>
    intro st
    rw [allocFold_cons]
    simp [ih]

theorem allocFold_map_id (rng : Nat → Nat) (mp : Nat) (fb : Bool)
    (l : List Student) : ∀ st : AllocState,
    (allocFold rng mp fb st l).2.map Snapshot.student_id = l.map Student.id := by
  induction l with
  | nil => intro st; rfl
  | cons s rest ih =>
    intro st
    rw [allocFold_cons]
    simp [ih, (allocStep_fields rng mp fb st s).1]

theorem allocFold_map_gpa (rng : Nat → Nat) (mp : Nat) (fb : Bool)
    (l : List Student) : ∀ st : AllocState,
    (allocFold rng mp fb st l).2.map Snapshot.gpa = l.map Student.gpa := by
  induction l with
  | nil => intro st; rfl
  | cons s rest ih =>
    intro st
    rw [allocFold_cons]
    simp [ih, (allocStep_fields rng mp fb st s).2.1]

theorem allocFold_capacity_dict (rng : Nat → Nat) (mp : Nat) (fb : Bool)
    (l : List Student) : ∀ st : AllocState,
    (allocFold rng mp fb st l).1.capacity_dict = st.capacity_dict := by
  induction l with
  | nil => intro st; rfl
  | cons s rest ih =>
    intro st
    rw [allocFold_cons]
    simp only []
    rw [ih, (allocStep_fields rng mp fb st s).2.2.2.2.2.1]

theorem allocFold_caps_keys (rng : Nat → Nat) (mp : Nat) (fb : Bool)
    (l : List Student) : ∀ st : AllocState,
    (allocFold rng mp fb st l).1.caps.map Prod.fst = st.caps.map Prod.fst := by
  induction l with
  | nil => intro st; rfl
  | cons s rest ih =>
    intro st
    rw [allocFold_cons]
    simp only []
    rw [ih, (allocStep_fields rng mp fb st s).2.2.2.2.2.2.1]

theorem allocFold_getLast (rng : Nat → Nat) (mp : Nat) (fb : Bool)
    (l : List Student) : ∀ (st : AllocState) (last : Snapshot),
    (allocFold rng mp fb st l).2.getLast? = some last →
    last.assignments = (allocFold rng mp fb st l).1.assignments
    ∧ last.remaining = (allocFold rng mp fb st l).1.caps := by
  induction l with
  | nil => intro st last h; simp [allocFold] at h
  | cons s rest ih =>
    intro st last h
    have hf := allocStep_fields rng mp fb st s
    cases rest with
    | nil =>
      rw [allocFold_cons] at h ⊢
      simp [allocFold] at h ⊢
      rw [← h]
      exact ⟨hf.2.2.2.2.1, hf.2.2.2.1⟩
    | cons s2 rest2 =>
      rw [allocFold_cons] at h ⊢
      simp only []
      cases hsn : (allocFold rng mp fb (allocStep rng mp fb st s).1
          (s2 :: rest2)).2 with
      | nil =>
        have := allocFold_length rng mp fb (s2 :: rest2)
          (allocStep rng mp fb st s).1
        rw [hsn] at this
        simp at this
      | cons b t =>
        rw [hsn, List.getLast?_cons_cons] at h
        have := ih (allocStep rng mp fb st s).1 last (by rw [hsn]; exact h)
        exact this

theorem allocFold_assignment_keys (rng : Nat → Nat) (mp : Nat) (fb : Bool)
    (l : List Student) : ∀ st : AllocState,
    (l.map Student.id).Nodup →
    (∀ i ∈ l.map Student.id, i ∉ st.assignments.map Prod.fst) →
    (allocFold rng mp fb st l).1.assignments.map Prod.fst
      = st.assignments.map Prod.fst ++ l.map Student.id := by
  induction l with
  | nil => intro st _ _; simp [allocFold]
  | cons s rest ih =>
    intro st hids hdisj
    simp only [List.map_cons, List.nodup_cons] at hids
    have hfresh : s.id ∉ st.assignments.map Prod.fst :=
      hdisj s.id (by simp)
    have hstep : (allocStep rng mp fb st s).1.assignments
        = st.assignments ++ [(s.id, (allocStep rng mp fb st s).2.chosen)] := by
      rw [(allocStep_fields rng mp fb st s).2.2.2.2.2.2.2]
      exact dictInsert_of_not_mem hfresh
    have hkeys : (allocStep rng mp fb st s).1.assignments.map Prod.fst
        = st.assignments.map Prod.fst ++ [s.id] := by
      rw [hstep]; simp
    have hdisj' : ∀ i ∈ rest.map Student.id,
        i ∉ (allocStep rng mp fb st s).1.assignments.map Prod.fst := by
      intro i hi
      rw [hkeys]
      simp only [List.mem_append, List.mem_singleton]
      rintro (hmem | hid)
      · exact hdisj i (List.mem_cons_of_mem _ hi) hmem
      · exact hids.1 (hid ▸ hi)
    rw [allocFold_cons]
    simp only []
    rw [ih _ hids.2 hdisj', hkeys]
    simp

theorem allocFold_conservation (rng : Nat → Nat) (mp : Nat) (fb : Bool)
    (l : List Student) : ∀ st : AllocState,
    (st.caps.map Prod.fst).Nodup →
    (l.map Student.id).Nodup →
    (∀ i ∈ l.map Student.id, i ∉ st.assignments.map Prod.fst) →
    ∀ cat : Cat,
      capsGet (allocFold rng mp fb st l).1.caps cat
        = capsGet st.caps cat
          - (((allocFold rng mp fb st l).1.assignments.filter
              (fun p => decide (p.2 = some cat))).length : ℤ)
          + ((st.assignments.filter (fun p => decide (p.2 = some cat))).length : ℤ) := by
  induction l with
  | nil => intro st _ _ _ cat; simp [allocFold]
  | cons s rest ih =>
    intro st hwf hids hdisj cat
    simp only [List.map_cons, List.nodup_cons] at hids
    have hfresh : s.id ∉ st.assignments.map Prod.fst :=
      hdisj s.id (by simp)
    have hstep : (allocStep rng mp fb st s).1.assignments
        = st.assignments ++ [(s.id, (allocStep rng mp fb st s).2.chosen)] := by
      rw [(allocStep_fields rng mp fb st s).2.2.2.2.2.2.2]
      exact dictInsert_of_not_mem hfresh
    have hkeys : (allocStep rng mp fb st s).1.assignments.map Prod.fst
        = st.assignments.map Prod.fst ++ [s.id] := by
      rw [hstep]; simp
    have hdisj' : ∀ i ∈ rest.map Student.id,
        i ∉ (allocStep rng mp fb st s).1.assignments.map Prod.fst := by
      intro i hi
      rw [hkeys]
      simp only [List.mem_append, List.mem_singleton]
      rintro (hmem | hid)
      · exact hdisj i (List.mem_cons_of_mem _ hi) hmem
      · exact hids.1 (hid ▸ hi)
    have hwf' : ((allocStep rng mp fb st s).1.caps.map Prod.fst).Nodup := by
      rw [(allocStep_fields rng mp fb st s).2.2.2.2.2.2.1]; exact hwf
    have hcnt : (((allocStep rng mp fb st s).1.assignments.filter
        (fun p => decide (p.2 = some cat))).length : ℤ)
        = ((st.assignments.filter (fun p => decide (p.2 = some cat))).length : ℤ)
          + (if (allocStep rng mp fb st s).2.chosen = some cat then 1 else 0) := by
      rw [hstep, List.filter_append]
      by_cases hch : (allocStep rng mp fb st s).2.chosen = some cat <;>
        simp [hch]
    have hcap := allocStep_capsGet rng mp fb st s hwf cat
    rw [allocFold_cons]
    simp only []
    rw [ih _ hwf' hids.2 hdisj', hcap, hcnt]
    ring

theorem allocFold_snap_ext (rng : Nat → Nat) (mp : Nat) (fb : Bool)
    (l : List Student) : ∀ st : AllocState,
    (l.map Student.id).Nodup →
    (∀ i ∈ l.map Student.id, i ∉ st.assignments.map Prod.fst) →
    ∀ t snapT, (allocFold rng mp fb st l).2[t]? = some snapT →
      ∃ ext, snapT.assignments = st.assignments ++ ext ∧ ext.length = t + 1 := by
  induction l with
  | nil =>
    intro st _ _ t snapT h
    simp [allocFold] at h
  | cons s rest ih =>
    intro st hids hdisj t snapT h
    simp only [List.map_cons, List.nodup_cons] at hids
    have hfresh : s.id ∉ st.assignments.map Prod.fst :=
      hdisj s.id (by simp)
    have hstep : (allocStep rng mp fb st s).1.assignments
        = st.assignments ++ [(s.id, (allocStep rng mp fb st s).2.chosen)] := by
      rw [(allocStep_fields rng mp fb st s).2.2.2.2.2.2.2]
      exact dictInsert_of_not_mem hfresh
    have hkeys : (allocStep rng mp fb st s).1.assignments.map Prod.fst
        = st.assignments.map Prod.fst ++ [s.id] := by
      rw [hstep]; simp
    have hdisj' : ∀ i ∈ rest.map Student.id,
        i ∉ (allocStep rng mp fb st s).1.assignments.map Prod.fst := by
      intro i hi
      rw [hkeys]
      simp only [List.mem_append, List.mem_singleton]
      rintro (hmem | hid)
      · exact hdisj i (List.mem_cons_of_mem _ hi) hmem
      · exact hids.1 (hid ▸ hi)
    rw [allocFold_cons] at h
    cases t with
    | zero =>
      simp only [List.getElem?_cons_zero, Option.some.injEq] at h
      refine ⟨[(s.id, (allocStep rng mp fb st s).2.chosen)], ?_, rfl⟩
      rw [← h, (allocStep_fields rng mp fb st s).2.2.2.2.1, hstep]
    | succ t' =>
      simp only [List.getElem?_cons_succ] at h
      rcases ih (allocStep rng mp fb st s).1 hids.2 hdisj' t' snapT h with
        ⟨ext, hext, hlen⟩
      refine ⟨(s.id, (allocStep rng mp fb st s).2.chosen) :: ext, ?_, by simp [hlen]⟩
      rw [hext, hstep]
      simp

theorem allocFold_snaps_mono (rng : Nat → Nat) (mp : Nat) (fb : Bool)
    (l : List Student) : ∀ st : AllocState,
    (l.map Student.id).Nodup →
    (∀ i ∈ l.map Student.id, i ∉ st.assignments.map Prod.fst) →
    ∀ i j (_hij : i ≤ j) (si sj : Snapshot),
      (allocFold rng mp fb st l).2[i]? = some si →
      (allocFold rng mp fb st l).2[j]? = some sj →
      ∃ ext, sj.assignments = si.assignments ++ ext ∧ ext.length = j - i := by
  induction l with
  | nil =>
    intro st _ _ i j hij si sj hi hj
    simp [allocFold] at hi
  | cons s rest ih =>
    intro st hids hdisj i j hij si sj hi hj
    simp only [List.map_cons, List.nodup_cons] at hids
    have hfresh : s.id ∉ st.assignments.map Prod.fst :=
      hdisj s.id (by simp)
    have hstep : (allocStep rng mp fb st s).1.assignments
        = st.assignments ++ [(s.id, (allocStep rng mp fb st s).2.chosen)] := by
      rw [(allocStep_fields rng mp fb st s).2.2.2.2.2.2.2]
      exact dictInsert_of_not_mem hfresh
    have hkeys : (allocStep rng mp fb st s).1.assignments.map Prod.fst
        = st.assignments.map Prod.fst ++ [s.id] := by
      rw [hstep]; simp
    have hdisj' : ∀ i ∈ rest.map Student.id,
        i ∉ (allocStep rng mp fb st s).1.assignments.map Prod.fst := by
      intro i hi
      rw [hkeys]
      simp only [List.mem_append, List.mem_singleton]
      rintro (hmem | hid)
      · exact hdisj i (List.mem_cons_of_mem _ hi) hmem
      · exact hids.1 (hid ▸ hi)
    rw [allocFold_cons] at hi hj
    cases i with
    | zero =>
      simp only [List.getElem?_cons_zero, Option.some.injEq] at hi
      cases j with
      | zero =>
        simp only [List.getElem?_cons_zero, Option.some.injEq] at hj
        exact ⟨[], by rw [← hi, ← hj]; simp, rfl⟩
      | succ j' =>
        simp only [List.getElem?_cons_succ] at hj
        rcases allocFold_snap_ext rng mp fb rest (allocStep rng mp fb st s).1
          hids.2 hdisj' j' sj hj with ⟨ext, hext, hlen⟩
        refine ⟨ext, ?_, by simpa using hlen⟩
        rw [hext, ← hi, (allocStep_fields rng mp fb st s).2.2.2.2.1]
    | succ i' =>
      cases j with
      | zero => exact absurd hij (by omega)
      | succ j' =>
        simp only [List.getElem?_cons_succ] at hi hj
        rcases ih (allocStep rng mp fb st s).1 hids.2 hdisj' i' j'
          (Nat.le_of_succ_le_succ hij) si sj hi hj with ⟨ext, hext, hlen⟩
        exact ⟨ext, hext, by simpa using hlen⟩

/-- **C2** (fallback rule): for a student none of whose effective preferences
has remaining capacity, with fallback enabled and some category with
capacity outside the preference list, the engine assigns one such category
— located by the uniform random draw `rng` at the current stream position —
and decrements exactly its capacity by 1; with fallback disabled or no such
category, the student is recorded unassigned and the capacity state is
unchanged; and in the concrete three-student scenario of the spec the last
student is assigned the third category by fallback rather than left
unassigned. -/
theorem C2_fallback_rule (rng : Nat → Nat) (mp : Nat) (fb : Bool)
    (st : AllocState) (s : Student)
    (hwf : (st.caps.map Prod.fst).Nodup)
    (hnone : ∀ c ∈ effPrefs mp s, capsGet st.caps c ≤ 0) :
    (fb = true → (∃ c, 0 < capsGet st.caps c ∧ c ∉ effPrefs mp s) →
      ∃ c, (allocStep rng mp fb st s).2.chosen = some c
        ∧ c ∉ effPrefs mp s
        ∧ 0 < capsGet st.caps c
        ∧ (availableSpecs st.caps (effPrefs mp s))[rng st.rndIdx %
            (availableSpecs st.caps (effPrefs mp s)).length]? = some c
        ∧ (allocStep rng mp fb st s).1.caps = capsDec st.caps c
        ∧ capsGet (allocStep rng mp fb st s).1.caps c = capsGet st.caps c - 1
        ∧ (∀ d, d ≠ c →
            capsGet (allocStep rng mp fb st s).1.caps d = capsGet st.caps d)
        ∧ (allocStep rng mp fb st s).1.rndIdx = st.rndIdx + 1)
    ∧ ((fb = false ∨ ¬ ∃ c, 0 < capsGet st.caps c ∧ c ∉ effPrefs mp s) →
      (allocStep rng mp fb st s).2.chosen = none
        ∧ (allocStep rng mp fb st s).1.caps = st.caps)
    ∧ (allocation_steps
        ⟨true, true, [⟨1, 9, [some "CatX", some "CatY"]⟩,
                      ⟨2, 8, [some "CatX", some "CatY"]⟩,
                      ⟨3, 7, [some "CatX", some "CatY"]⟩]⟩
        [("CatX", 1), ("CatY", 1), ("CatZ", 1)] 2 true (fun _ => 0)).map
          (fun snaps => snaps.map (fun sn => (sn.student_id, sn.chosen)))
        = Except.ok [(1, some "CatX"), (2, some "CatY"), (3, some "CatZ")] := by
  have hfind : (effPrefs mp s).find? (fun p => decide (0 < capsGet st.caps p))
      = none := by
    rw [List.find?_eq_none]
    intro x hx
    simp only [decide_eq_true_eq]
    exact not_lt.mpr (hnone x hx)
  refine ⟨?_, ?_, by rfl⟩
  · rintro rfl ⟨c₀, hpos₀, hnm₀⟩
    have hne : availableSpecs st.caps (effPrefs mp s) ≠ [] := by
      intro hnil
      have : c₀ ∈ availableSpecs st.caps (effPrefs mp s) :=
        (mem_availableSpecs hwf).mpr ⟨hpos₀, hnm₀⟩
      rw [hnil] at this
      exact absurd this (List.not_mem_nil c₀)
    cases havail : availableSpecs st.caps (effPrefs mp s) with
    | nil => exact absurd havail hne
    | cons a rest =>
      refine ⟨(a :: rest).get
        ⟨rng st.rndIdx % (a :: rest).length, Nat.mod_lt _ (Nat.succ_pos _)⟩,
        ?_, ?_, ?_, ?_, ?_, ?_, ?_, ?_⟩
      case _ => rw [allocStep_fb_cons hfind havail]
      case _ =>
        have hmem : (a :: rest).get
            ⟨rng st.rndIdx % (a :: rest).length, Nat.mod_lt _ (Nat.succ_pos _)⟩
            ∈ availableSpecs st.caps (effPrefs mp s) := by
          rw [havail]; exact List.get_mem _ _ _
        exact ((mem_availableSpecs hwf).mp hmem).2
      case _ =>
        have hmem : (a :: rest).get
            ⟨rng st.rndIdx % (a :: rest).length, Nat.mod_lt _ (Nat.succ_pos _)⟩
            ∈ availableSpecs st.caps (effPrefs mp s) := by
          rw [havail]; exact List.get_mem _ _ _
        exact ((mem_availableSpecs hwf).mp hmem).1
      case _ =>
        have hlt : rng st.rndIdx % (a :: rest).length < (a :: rest).length :=
          Nat.mod_lt _ (Nat.succ_pos _)
        rw [List.getElem?_eq_getElem hlt]
        simp [List.get_eq_getElem]
      case _ => rw [allocStep_fb_cons hfind havail]
      case _ =>
        rw [allocStep_fb_cons hfind havail]
        refine capsGet_capsDec_self ?_
        have hmem : (a :: rest).get
            ⟨rng st.rndIdx % (a :: rest).length, Nat.mod_lt _ (Nat.succ_pos _)⟩
            ∈ availableSpecs st.caps (effPrefs mp s) := by
          rw [havail]; exact List.get_mem _ _ _
        exact ((mem_availableSpecs hwf).mp hmem).1
      case _ =>
        intro d hd
        rw [allocStep_fb_cons hfind havail]
        exact capsGet_capsDec_ne _ hd
      case _ => rw [allocStep_fb_cons hfind havail]
  · intro h
    rcases h with hfb | hnex
    · subst hfb
      rw [allocStep_nofb hfind]
      exact ⟨rfl, rfl⟩
    · have havail : availableSpecs st.caps (effPrefs mp s) = [] := by
        cases havail : availableSpecs st.caps (effPrefs mp s) with
        | nil => rfl
        | cons a rest =>
          have : a ∈ availableSpecs st.caps (effPrefs mp s) := by
            rw [havail]; exact List.mem_cons_self a rest
          have := (mem_availableSpecs hwf).mp this
          exact absurd ⟨a, this.1, this.2⟩ hnex
      cases fb with
      | false => rw [allocStep_nofb hfind]; exact ⟨rfl, rfl⟩
      | true => rw [allocStep_fb_nil hfind havail]; exact ⟨rfl, rfl⟩

/-- Witness for C2 at a concrete input: both preferences exhausted, fallback
assigns the remaining category. -/
theorem C2_fallback_rule_witness :
    ∃ c, (allocStep (fun _ => 0) 5 true
      ⟨[("P", 0), ("Q", 1)], [("P", 0), ("Q", 1)], [], 0⟩
      ⟨4, 3, [some "P"]⟩).2.chosen = some c
      ∧ c ∉ effPrefs 5 ⟨4, 3, [some "P"]⟩
      ∧ 0 < capsGet [("P", 0), ("Q", 1)] c
      ∧ (availableSpecs [("P", 0), ("Q", 1)] (effPrefs 5 ⟨4, 3, [some "P"]⟩))[
          (fun _ : Nat => 0) 0 %
          (availableSpecs [("P", 0), ("Q", 1)]
            (effPrefs 5 ⟨4, 3, [some "P"]⟩)).length]? = some c
      ∧ (allocStep (fun _ => 0) 5 true
          ⟨[("P", 0), ("Q", 1)], [("P", 0), ("Q", 1)], [], 0⟩
          ⟨4, 3, [some "P"]⟩).1.caps = capsDec [("P", 0), ("Q", 1)] c
      ∧ capsGet (allocStep (fun _ => 0) 5 true
          ⟨[("P", 0), ("Q", 1)], [("P", 0), ("Q", 1)], [], 0⟩
          ⟨4, 3, [some "P"]⟩).1.caps c = capsGet [("P", 0), ("Q", 1)] c - 1
      ∧ (∀ d, d ≠ c → capsGet (allocStep (fun _ => 0) 5 true
          ⟨[("P", 0), ("Q", 1)], [("P", 0), ("Q", 1)], [], 0⟩
          ⟨4, 3, [some "P"]⟩).1.caps d = capsGet [("P", 0), ("Q", 1)] d)
      ∧ (allocStep (fun _ => 0) 5 true
          ⟨[("P", 0), ("Q", 1)], [("P", 0), ("Q", 1)], [], 0⟩
          ⟨4, 3, [some "P"]⟩).1.rndIdx = 0 + 1 :=
  (C2_fallback_rule (fun _ => 0) 5 true
    ⟨[("P", 0), ("Q", 1)], [("P", 0), ("Q", 1)], [], 0⟩
    ⟨4, 3, [some "P"]⟩ (by decide) (by decide)).1 rfl
    ⟨"Q", by decide, by decide⟩

theorem allocation_steps_ok {df : DataFrame} {caps : Caps} {mp : Nat}
    {fb : Bool} {rng : Nat → Nat} {snaps : List Snapshot}
    (hok : allocation_steps df caps mp fb rng = Except.ok snaps) :
    snaps = (allocFold rng mp fb (initState caps) (sortByGpaDesc df.rows)).2 := by
  unfold allocation_steps at hok
  by_cases hcond : (df.has_id && df.has_gpa) = true
  · rw [if_pos hcond] at hok
    injection hok with h
    exact h.symm
  · rw [if_neg hcond] at hok
    exact absurd hok (by simp)

/-- **C3** (output guarantee): on a valid input, `allocation_steps` returns
exactly one snapshot per input student, in processing order (the GPA-sorted
order, a permutation of the input visited by score descending), and — for
unique student ids — the final snapshot's assignment map has exactly one
entry per input student. -/
theorem C3_output_shape (df : DataFrame) (caps : Caps) (mp : Nat) (fb : Bool)
    (rng : Nat → Nat) (hid : df.has_id = true) (hgpa : df.has_gpa = true) :
    ∃ snaps, allocation_steps df caps mp fb rng = Except.ok snaps
      ∧ snaps.length = df.rows.length
      ∧ snaps.map Snapshot.student_id = (sortByGpaDesc df.rows).map Student.id
      ∧ (sortByGpaDesc df.rows).Perm df.rows
      ∧ (snaps.map Snapshot.gpa).Sorted (fun a b => b ≤ a)
      ∧ ((df.rows.map Student.id).Nodup →
          ∀ last, snaps.getLast? = some last →
          (last.assignments.map Prod.fst).Perm (df.rows.map Student.id)
          ∧ (last.assignments.map Prod.fst).Nodup) := by
  refine ⟨(allocFold rng mp fb (initState caps) (sortByGpaDesc df.rows)).2,
    ?_, ?_, ?_, ?_, ?_, ?_⟩
  · unfold allocation_steps
    rw [if_pos (by rw [hid, hgpa]; rfl)]
  · rw [allocFold_length]
    exact (List.perm_insertionSort gpaGe df.rows).length_eq
  · exact allocFold_map_id rng mp fb (sortByGpaDesc df.rows) (initState caps)
  · exact List.perm_insertionSort gpaGe df.rows
  · rw [allocFold_map_gpa]
    have hs : List.Sorted gpaGe (sortByGpaDesc df.rows) :=
      List.sorted_insertionSort gpaGe df.rows
    exact List.pairwise_map.mpr hs
  · intro hids last hlast
    have hperm0 : ((sortByGpaDesc df.rows).map Student.id).Perm
        (df.rows.map Student.id) :=
      (List.perm_insertionSort gpaGe df.rows).map Student.id
    have hids' : ((sortByGpaDesc df.rows).map Student.id).Nodup :=
      hperm0.nodup_iff.mpr hids
    have hkeys := allocFold_assignment_keys rng mp fb (sortByGpaDesc df.rows)
      (initState caps) hids' (by intro i hi; simp [initState])
    have hlastf := allocFold_getLast rng mp fb (sortByGpaDesc df.rows)
      (initState caps) last hlast
    constructor
    · rw [hlastf.1, hkeys]
      simpa [initState] using hperm0
    · rw [hlastf.1, hkeys]
      simpa [initState] using hids'

/-- Witness for C3 at a concrete input. -/
theorem C3_output_shape_witness :
    ∃ snaps, allocation_steps ⟨true, true, [stuR]⟩ [("R", 1)] 5
        false (fun _ => 0) = Except.ok snaps
      ∧ snaps.length = [stuR].length
      ∧ snaps.map Snapshot.student_id = (sortByGpaDesc [stuR]).map Student.id
      ∧ (sortByGpaDesc [stuR]).Perm [stuR]
      ∧ (snaps.map Snapshot.gpa).Sorted (fun a b => b ≤ a)
      ∧ (([stuR].map Student.id).Nodup →
          ∀ last, snaps.getLast? = some last →
          (last.assignments.map Prod.fst).Perm ([stuR].map Student.id)
          ∧ (last.assignments.map Prod.fst).Nodup) :=
  C3_output_shape ⟨true, true, [stuR]⟩ [("R", 1)] 5 false
    (fun _ => 0) rfl rfl

/-- **C4** (capacity conservation): for every category of the initial
capacity map, the initial capacity minus the remaining capacity recorded in
the final snapshot equals the number of students whose final assignment is
that category. -/
theorem C4_capacity_conservation (df : DataFrame) (caps : Caps) (mp : Nat)
    (fb : Bool) (rng : Nat → Nat) (snaps : List Snapshot) (last : Snapshot)
    (hok : allocation_steps df caps mp fb rng = Except.ok snaps)
    (hwf : (caps.map Prod.fst).Nodup)
    (hids : (df.rows.map Student.id).Nodup)
    (hlast : snaps.getLast? = some last) :
    ∀ cat ∈ caps.map Prod.fst,
      capsGet caps cat - capsGet last.remaining cat
        = ((last.assignments.filter
            (fun p => decide (p.2 = some cat))).length : ℤ) := by
  have hsnaps := allocation_steps_ok hok
  subst hsnaps
  have hlastf := allocFold_getLast rng mp fb (sortByGpaDesc df.rows)
    (initState caps) last hlast
  have hids' : ((sortByGpaDesc df.rows).map Student.id).Nodup :=
    (((List.perm_insertionSort gpaGe df.rows).map Student.id).nodup_iff).mpr hids
  have hcons := allocFold_conservation rng mp fb (sortByGpaDesc df.rows)
    (initState caps) hwf hids' (by intro i hi; simp [initState])
  intro cat _hcat
  have hc := hcons cat
  rw [hlastf.1, hlastf.2]
  rw [show (initState caps).caps = caps from rfl,
    show (initState caps).assignments = ([] : List (Nat × Option Cat)) from rfl]
    at hc
  simp only [List.filter_nil, List.length_nil, Nat.cast_zero, add_zero] at hc
  omega

/-- Witness for C4 at a concrete one-student run, read off at category
`"R"`. -/
theorem C4_capacity_conservation_witness :
    capsGet [("R", 1)] "R"
        - capsGet (Snapshot.mk 1 5 ["R"] (some "R") [("R", 0)]
            [(1, some "R")]).remaining "R"
      = (((Snapshot.mk 1 5 ["R"] (some "R") [("R", 0)]
            [(1, some "R")]).assignments.filter
          (fun p => decide (p.2 = some "R"))).length : ℤ) :=
  C4_capacity_conservation ⟨true, true, [⟨1, 5, [some "R"]⟩]⟩ [("R", 1)] 5
    false (fun _ => 0) _ _ rfl (by decide) (by decide) rfl "R" (by decide)

/-- **C5** (monotonic assignment map): across one run's snapshots, every
earlier binding persists unchanged in later snapshots and each step adds
exactly one entry (the length grows by exactly `j - i` between snapshots
`i < j`). -/
theorem C5_monotonic_assignments (df : DataFrame) (caps : Caps) (mp : Nat)
    (fb : Bool) (rng : Nat → Nat) (snaps : List Snapshot)
    (hok : allocation_steps df caps mp fb rng = Except.ok snaps)
    (hids : (df.rows.map Student.id).Nodup) :
    ∀ i j, i < j → ∀ si sj : Snapshot,
      snaps[i]? = some si → snaps[j]? = some sj →
      (∀ k v, si.assignments.lookup k = some v →
        sj.assignments.lookup k = some v)
      ∧ sj.assignments.length = si.assignments.length + (j - i) := by
  have hsnaps := allocation_steps_ok hok
  subst hsnaps
  intro i j hij si sj hi hj
  have hids' : ((sortByGpaDesc df.rows).map Student.id).Nodup :=
    (((List.perm_insertionSort gpaGe df.rows).map Student.id).nodup_iff).mpr hids
  rcases allocFold_snaps_mono rng mp fb (sortByGpaDesc df.rows)
    (initState caps) hids' (by intro i hi; simp [initState]) i j
    (le_of_lt hij) si sj hi hj with ⟨ext, hext, hlen⟩
  constructor
  · intro k v hkv
    rw [hext]
    exact lookup_append_left hkv
  · rw [hext]
    simp [hlen]

/-- Witness for C5 at a concrete two-student run. -/
theorem C5_monotonic_assignments_witness :
    (∀ k v, (Snapshot.mk 1 5 ["R"] (some "R") [("R", 0)]
        [(1, some "R")]).assignments.lookup k = some v →
      (Snapshot.mk 2 4 ["R"] none [("R", 0)]
        [(1, some "R"), (2, none)]).assignments.lookup k = some v)
    ∧ (Snapshot.mk 2 4 ["R"] none [("R", 0)]
        [(1, some "R"), (2, none)]).assignments.length
      = (Snapshot.mk 1 5 ["R"] (some "R") [("R", 0)]
          [(1, some "R")]).assignments.length + (1 - 0) :=
  C5_monotonic_assignments
    ⟨true, true, [⟨1, 5, [some "R"]⟩, ⟨2, 4, [some "R"]⟩]⟩ [("R", 1)] 5 false
    (fun _ => 0) _ rfl (by decide) 0 1 (by decide) _ _ rfl rfl

/-- **C6** (determinism): two calls with identical population, capacity map,
configuration and random stream (the stream a fixed seed determines)
return identical snapshot sequences in every field, including every
fallback draw. -/
theorem C6_determinism (df₁ df₂ : DataFrame) (caps₁ caps₂ : Caps)
    (mp₁ mp₂ : Nat) (fb₁ fb₂ : Bool) (rng₁ rng₂ : Nat → Nat)
    (hdf : df₁ = df₂) (hcaps : caps₁ = caps₂) (hmp : mp₁ = mp₂)
    (hfb : fb₁ = fb₂) (hrng : rng₁ = rng₂) :
    allocation_steps df₁ caps₁ mp₁ fb₁ rng₁
      = allocation_steps df₂ caps₂ mp₂ fb₂ rng₂ := by
  subst hdf hcaps hmp hfb hrng
  rfl

/-- Witness for C6 at a concrete input. -/
theorem C6_determinism_witness :
    allocation_steps ⟨true, true, [⟨1, 5, [some "R"]⟩]⟩ [("R", 1)] 5 true
        (fun _ => 0)
      = allocation_steps ⟨true, true, [⟨1, 5, [some "R"]⟩]⟩ [("R", 1)] 5 true
        (fun _ => 0) :=
  C6_determinism _ _ _ _ _ _ _ _ _ _ rfl rfl rfl rfl rfl

/-- **C7** (validation): `allocation_steps` fails (with the
missing-required-field error) exactly when the input lacks the `id` or
`gpa` column; the failure is independent of the rows (no student is
processed) and no snapshot is returned; on a valid input it returns
a snapshot list. -/
theorem C7_validation (df : DataFrame) (caps : Caps) (mp : Nat) (fb : Bool)
    (rng : Nat → Nat) :
    ((df.has_id = true ∧ df.has_gpa = true) →
      ∃ snaps, allocation_steps df caps mp fb rng = Except.ok snaps)
    ∧ (¬(df.has_id = true ∧ df.has_gpa = true) →
      ∀ rows' : List Student,
        allocation_steps ⟨df.has_id, df.has_gpa, rows'⟩ caps mp fb rng
          = Except.error "DataFrame must contain id and gpa columns.") := by
  constructor
  · rintro ⟨h1, h2⟩
    refine ⟨(allocFold rng mp fb (initState caps) (sortByGpaDesc df.rows)).2, ?_⟩
    unfold allocation_steps
    rw [if_pos (by rw [h1, h2]; rfl)]
  · intro hne rows'
    unfold allocation_steps
    rw [if_neg (by simpa [Bool.and_eq_true] using hne)]

/-- **C10** (frame effect): the run state carries the caller-supplied
capacity map unchanged through the whole fold — every decrement is applied
to the working copy `caps` initialized from it — so after the run the
caller's mapping still holds its original values. -/
theorem C10_capacity_dict_frame (df : DataFrame) (caps : Caps) (mp : Nat)
    (fb : Bool) (rng : Nat → Nat) :
    (allocFold rng mp fb (initState caps)
        (sortByGpaDesc df.rows)).1.capacity_dict = caps
    ∧ (initState caps).caps = caps :=
  ⟨(allocFold_capacity_dict rng mp fb (sortByGpaDesc df.rows)
      (initState caps)).trans rfl, rfl⟩

/-! ## Sampler lemmas -/

theorem accFrom_length (l : List ℚ) : ∀ a, (accFrom a l).length = l.length := by
  induction l with
  | nil => intro a; rfl
  | cons x xs ih => intro a; simp [accFrom, ih]

theorem accFrom_getLast (l : List ℚ) (h : l ≠ []) :
    ∀ a, (accFrom a l).getLast? = some (a + l.sum) := by
  induction l with
  | nil => exact absurd rfl h
  | cons x xs ih =>
    intro a
    cases xs with
    | nil => simp [accFrom]
    | cons y ys =>
      have hx : accFrom a (x :: y :: ys)
          = (a + x) :: accFrom (a + x) (y :: ys) := rfl
      have hy : accFrom (a + x) (y :: ys)
          = (a + x + y) :: accFrom (a + x + y) ys := rfl
      rw [hx, hy, List.getLast?_cons_cons, ← hy, ih (by simp)]
      congr 1
      simp only [List.sum_cons]
      ring

theorem accumulate_length (l : List ℚ) : (accumulate l).length = l.length :=
  accFrom_length l 0

theorem accumulate_getLast (l : List ℚ) (h : l ≠ []) :
    (accumulate l).getLast? = some l.sum := by
  unfold accumulate
  rw [accFrom_getLast l h 0, zero_add]

theorem bisectAux_le (a : List ℚ) (x : ℚ) :
    ∀ (fuel lo hi : Nat), lo ≤ hi → bisectAux a x fuel lo hi ≤ hi := by
  intro fuel
  induction fuel with
  | zero => intro lo hi h; exact h
  | succ f ih =>
    intro lo hi h
    simp only [bisectAux]
    by_cases hlt : lo < hi
    · rw [if_pos hlt]
      by_cases hx : x < a.getD ((lo + hi) / 2) 0
      · rw [if_pos hx]
        exact le_trans (ih lo ((lo + hi) / 2) (by omega)) (by omega)
      · rw [if_neg hx]
        exact ih ((lo + hi) / 2 + 1) hi (by omega)
    · rw [if_neg hlt]; exact h

theorem randomChoices_ok_mem {rng : Nat → ℚ} {ridx : Nat}
    {population weights : List ℚ} {k : Nat} {out : List ℚ × Nat}
    (h : randomChoices rng ridx population weights k = Except.ok out) :
    ∀ g ∈ out.1, g ∈ population := by
  unfold randomChoices at h
  by_cases h1 : (accumulate weights).length ≠ population.length
  · rw [if_pos h1] at h; exact absurd h (by simp)
  · rw [if_neg h1] at h
    push_neg at h1
    split at h
    · exact absurd h (by simp)
    · rename_i total hlast
      by_cases h2 : total ≤ 0
      · rw [if_pos h2] at h; exact absurd h (by simp)
      · rw [if_neg h2] at h
        injection h with h
        subst h
        intro g hg
        simp only [List.mem_map, List.mem_range] at hg
        rcases hg with ⟨j, _hj, rfl⟩
        have hne : accumulate weights ≠ [] := by
          intro hnil; rw [hnil] at hlast; simp at hlast
        have hnpos : 0 < population.length := by
          rw [← h1]; exact List.length_pos.mpr hne
        have hle : bisectRight (accumulate weights)
            (rng (ridx + j) * total) 0 (population.length - 1)
            ≤ population.length - 1 :=
          bisectAux_le _ _ _ _ _ (Nat.zero_le _)
        have hlt : bisectRight (accumulate weights)
            (rng (ridx + j) * total) 0 (population.length - 1)
            < population.length := by omega
        rw [List.getD_eq_getElem?_getD, List.getElem?_eq_getElem hlt]
        simp only [Option.getD_some]
        exact List.getElem_mem _

theorem pyPop_ok {l : List ℚ} {i : Int} {out : ℚ × List ℚ}
    (h : pyPop l i = Except.ok out) :
    out.1 ∈ l ∧ ∀ y ∈ out.2, y ∈ l := by
  unfold pyPop at h
  by_cases hc : (0 : ℤ) ≤ (if i < 0 then i + l.length else i)
      ∧ (if i < 0 then i + l.length else i).toNat < l.length
  · rw [dif_pos hc] at h
    injection h with h
    subst h
    refine ⟨List.get_mem _ _ _, fun y hy => ?_⟩
    exact (List.eraseIdx_sublist l _).subset hy
  · rw [dif_neg hc] at h
    exact absurd h (by simp)

theorem pyPop_isOk (l : List ℚ) (i : Int)
    (h : (0 ≤ i ∧ i < l.length) ∨ (i < 0 ∧ 0 ≤ i + l.length)) :
    ∃ out, pyPop l i = Except.ok out := by
  rcases h with ⟨h0, hlt⟩ | ⟨hneg, h0⟩
  · simp only [pyPop, if_neg (not_lt.mpr h0)]
    rw [dif_pos ⟨h0, by omega⟩]
    exact ⟨_, rfl⟩
  · simp only [pyPop, if_pos hneg]
    rw [dif_pos ⟨h0, by omega⟩]
    exact ⟨_, rfl⟩

theorem samplingLoop_ok_mem {rng : Nat → ℚ} :
    ∀ (k ridx : Nat) (choices probs acc : List ℚ) (out : List ℚ × Nat),
    samplingLoop rng k ridx choices probs acc = Except.ok out →
    ∀ g ∈ out.1, g ∈ choices ∨ g ∈ acc := by
  intro k
  induction k with
  | zero =>
    intro ridx choices probs acc out h g hg
    simp only [samplingLoop] at h
    injection h with h
    subst h
    exact Or.inr (List.mem_reverse.mp hg)
  | succ k' ih =>
    intro ridx choices probs acc out h g hg
    simp only [samplingLoop] at h
    cases hp1 : pyPop choices (weighted_pop (rng ridx) probs) with
    | error e =>
      rw [hp1] at h
      exact absurd h (by simp [Bind.bind, Except.bind])
    | ok gc =>
      rw [hp1] at h
      obtain ⟨g0, ch'⟩ := gc
      cases hp2 : pyPop probs (weighted_pop (rng ridx) probs) with
      | error e =>
        rw [hp2] at h
        exact absurd h (by simp [Bind.bind, Except.bind])
      | ok pp =>
        rw [hp2] at h
        obtain ⟨p0, pr'⟩ := pp
        simp only [Bind.bind, Except.bind] at h
        rcases ih _ _ _ _ _ h g hg with hin | hin
        · exact Or.inl ((pyPop_ok hp1).2 g hin)
        · rcases List.mem_cons.mp hin with rfl | hin
          · exact Or.inl (pyPop_ok hp1).1
          · exact Or.inr hin

theorem weightedPopAux_lt {r : ℚ} {probs : List ℚ} :
    ∀ {cum : ℚ} {i : Nat},
    weightedPopAux r cum probs = some i → i < probs.length := by
  induction probs with
  | nil => intro cum i h; simp [weightedPopAux] at h
  | cons p ps ih =>
    intro cum i h
    simp only [weightedPopAux] at h
    by_cases hr : r ≤ cum + p
    · rw [if_pos hr] at h
      injection h with h
      subst h
      simp
    · rw [if_neg hr] at h
      cases haux : weightedPopAux r (cum + p) ps with
      | none => rw [haux] at h; simp at h
      | some i' =>
        rw [haux] at h
        simp only [Option.map_some'] at h
        injection h with h
        subst h
        have := ih haux
        simp only [List.length_cons]
        omega

theorem weighted_pop_bounds (r : ℚ) {probs : List ℚ} (hne : probs ≠ []) :
    0 ≤ weighted_pop r probs
    ∧ weighted_pop r probs < (probs.length : ℤ) := by
  unfold weighted_pop
  cases haux : weightedPopAux r 0 probs with
  | some i =>
    have hlt := weightedPopAux_lt haux
    constructor
    · show (0 : ℤ) ≤ (i : ℤ)
      exact Int.ofNat_nonneg i
    · show (i : ℤ) < (probs.length : ℤ)
      exact_mod_cast hlt
  | none =>
    have hl : 0 < probs.length := List.length_pos.mpr hne
    constructor
    · show (0 : ℤ) ≤ (probs.length : ℤ) - 1
      omega
    · show (probs.length : ℤ) - 1 < (probs.length : ℤ)
      omega

theorem pyPop_ok_shape {l : List ℚ} {i : Int} {out : ℚ × List ℚ}
    (h : pyPop l i = Except.ok out) :
    ∃ j : Nat, j < l.length ∧ out.2 = l.eraseIdx j := by
  unfold pyPop at h
  by_cases hc : (0 : ℤ) ≤ (if i < 0 then i + l.length else i)
      ∧ (if i < 0 then i + l.length else i).toNat < l.length
  · rw [dif_pos hc] at h
    injection h with h
    subst h
    exact ⟨_, hc.2, rfl⟩
  · rw [dif_neg hc] at h
    exact absurd h (by simp)

theorem samplingLoop_isOk {rng : Nat → ℚ} :
    ∀ (k ridx : Nat) (choices probs acc : List ℚ),
    k ≤ choices.length → choices.length = probs.length →
    ∃ out, samplingLoop rng k ridx choices probs acc = Except.ok out := by
  intro k
  induction k with
  | zero => intro ridx choices probs acc _ _; exact ⟨_, rfl⟩
  | succ k' ih =>
    intro ridx choices probs acc hk hlen
    have hne : probs ≠ [] := by
      intro hp
      rw [hp] at hlen
      simp only [List.length_nil] at hlen
      omega
    have hb := weighted_pop_bounds (rng ridx) hne
    obtain ⟨oc, hoc⟩ := pyPop_isOk choices (weighted_pop (rng ridx) probs)
      (Or.inl ⟨hb.1, by rw [hlen]; exact hb.2⟩)
    obtain ⟨op, hop⟩ := pyPop_isOk probs (weighted_pop (rng ridx) probs)
      (Or.inl ⟨hb.1, hb.2⟩)
    obtain ⟨g0, ch'⟩ := oc
    obtain ⟨p0, pr'⟩ := op
    have hocl : ch'.length = choices.length - 1 := by
      rcases pyPop_ok_shape hoc with ⟨j, hj, h2⟩
      have h2' : ch' = choices.eraseIdx j := h2
      rw [h2', List.length_eraseIdx_of_lt hj]
    have hopl : pr'.length = probs.length - 1 := by
      rcases pyPop_ok_shape hop with ⟨j, hj, h2⟩
      have h2' : pr' = probs.eraseIdx j := h2
      rw [h2', List.length_eraseIdx_of_lt hj]
    simp only [samplingLoop, hoc, hop, Bind.bind, Except.bind]
    apply ih
    · rw [hocl]
      omega
    · by_cases hs : 0 < pr'.sum
      · rw [if_pos hs, List.length_map]
        omega
      · rw [if_neg hs]
        omega
theorem gridProbs_nil (pdfPos : ℚ → ℚ → ℚ → ℚ) (mean std : ℚ) :
    gridProbs pdfPos mean std [] = [] := rfl

theorem gridProbs_length (pdfPos : ℚ → ℚ → ℚ → ℚ) (mean std : ℚ)
    (allowed : List ℚ) :
    (gridProbs pdfPos mean std allowed).length = allowed.length := by
  simp only [gridProbs]
  by_cases h : (allowed.map (fun g => normal_pdf pdfPos g mean std)).sum ≤ 0 <;>
    simp [h]

theorem gridProbs_degenerate (pdfPos : ℚ → ℚ → ℚ → ℚ) (mean std : ℚ)
    (allowed : List ℚ)
    (hsum : (allowed.map (fun g => normal_pdf pdfPos g mean std)).sum ≤ 0) :
    gridProbs pdfPos mean std allowed
      = List.replicate allowed.length (1 / (allowed.length : ℚ)) := by
  simp only [gridProbs]
  rw [if_pos hsum]
  have h1 : (allowed.map (fun g => normal_pdf pdfPos g mean std)).map
      (fun _ => (1 : ℚ)) = List.replicate allowed.length 1 := by
    rw [List.map_map]
    have : allowed.map ((fun _ => (1 : ℚ)) ∘ (fun g => normal_pdf pdfPos g mean std))
        = allowed.map (fun _ => (1 : ℚ)) := rfl
    rw [this, List.map_const']
  rw [h1]
  have h2 : (List.replicate allowed.length (1 : ℚ)).sum
      = (allowed.length : ℚ) := by
    rw [List.sum_replicate, nsmul_eq_mul, mul_one]
  rw [h2, List.map_replicate]

theorem randomChoices_isOk (rng : Nat → ℚ) (ridx : Nat)
    (population probs : List ℚ) (k : Nat)
    (hlen : probs.length = population.length)
    (hne : probs ≠ [])
    (hsum : 0 < probs.sum) :
    ∃ out, randomChoices rng ridx population probs k = Except.ok out := by
  have hcl : (accumulate probs).length = population.length := by
    rw [accumulate_length, hlen]
  simp only [randomChoices, hcl, ne_eq, not_true_eq_false, if_false,
    accumulate_getLast probs hne]
  rw [if_neg (not_le.mpr hsum)]
  exact ⟨_, rfl⟩

theorem samplingLoop_empty_probs (rng : Nat → ℚ) (k ridx : Nat)
    (choices acc : List ℚ) (hne : choices ≠ []) :
    ∃ e, samplingLoop rng (k + 1) ridx choices [] acc = Except.error e := by
  have hl : 0 < choices.length := List.length_pos.mpr hne
  have hwp : weighted_pop (rng ridx) [] = -1 := rfl
  obtain ⟨oc, hoc⟩ := pyPop_isOk choices (-1)
    (Or.inr ⟨by norm_num, by omega⟩)
  obtain ⟨g0, ch'⟩ := oc
  have hpe : pyPop [] (-1 : ℤ)
      = Except.error "IndexError: pop index out of range" := rfl
  simp only [samplingLoop, hwp, hoc, hpe, Bind.bind, Except.bind]
  exact ⟨_, rfl⟩

theorem mem_storedGrid_of (gmin gmax : ℚ) (n : Nat) (gs : List ℚ)
    (hsub : ∀ g ∈ gs, g ∈ allowedGpas0 gmin gmax) :
    ∀ g ∈ List.insertionSort (fun a b : ℚ => b ≤ a)
        ((gs.take n).map (roundDec 3)),
      g ∈ storedGrid gmin gmax := by
  intro g hg
  rw [(List.perm_insertionSort (fun a b : ℚ => b ≤ a) _).mem_iff] at hg
  rcases List.mem_map.mp hg with ⟨g₀, hg₀, rfl⟩
  have hmem : g₀ ∈ allowedGpas0 gmin gmax :=
    hsub g₀ (List.take_subset n gs hg₀)
  unfold storedGrid
  exact List.mem_map_of_mem _ (List.mem_of_mem_filter hmem)

theorem roundDec_eval (d : Nat) (q : ℚ) (z : ℤ)
    (h1 : (z : ℚ) ≤ q * 10 ^ d + 1 / 2) (h2 : q * 10 ^ d + 1 / 2 < z + 1) :
    roundDec d q = (z : ℚ) / 10 ^ d := by
  unfold roundDec
  rw [Int.floor_eq_iff.mpr ⟨h1, by exact_mod_cast h2⟩]

theorem roundDec_mono (d : Nat) {a b : ℚ} (h : a ≤ b) :
    roundDec d a ≤ roundDec d b := by
  unfold roundDec
  have hp : (0 : ℚ) < 10 ^ d := by positivity
  have hfl : ((⌊a * 10 ^ d + 1 / 2⌋ : ℤ) : ℚ) ≤ ((⌊b * 10 ^ d + 1 / 2⌋ : ℤ) : ℚ) := by
    have harg : a * 10 ^ d + 1 / 2 ≤ b * 10 ^ d + 1 / 2 := by nlinarith
    exact_mod_cast Int.floor_le_floor harg
  rw [div_le_div_iff₀ hp hp]
  exact mul_le_mul_of_nonneg_right hfl (le_of_lt hp)

/-- When 6-decimal rounding does not move the left endpoint below `gmin`
nor the right endpoint above `gmax`, the range filter keeps every computed
grid level. -/
theorem allowedGpas0_all (gmin gmax : ℚ) (hle : gmin ≤ gmax)
    (hlo : gmin ≤ roundDec 6 gmin) (hhi : roundDec 6 gmax ≤ gmax) :
    allowedGpas0 gmin gmax = gridLevels gmin gmax := by
  unfold allowedGpas0
  rw [List.filter_eq_self]
  intro g hg
  unfold gridLevels at hg
  rcases List.mem_map.mp hg with ⟨i, hi, rfl⟩
  simp only [List.mem_range] at hi
  have hs : 0 ≤ gpaStep gmin gmax := by
    unfold gpaStep
    apply div_nonneg (by linarith) (by norm_num)
  have h1 : gmin ≤ gmin + i * gpaStep gmin gmax := by
    have : 0 ≤ (i : ℚ) * gpaStep gmin gmax := mul_nonneg (by positivity) hs
    linarith
  have h2 : gmin + i * gpaStep gmin gmax ≤ gmax := by
    have hi63 : (i : ℚ) ≤ 63 := by exact_mod_cast Nat.le_of_lt_succ hi
    have hmul : (i : ℚ) * gpaStep gmin gmax ≤ 63 * gpaStep gmin gmax :=
      mul_le_mul_of_nonneg_right hi63 hs
    have h63 : gmin + 63 * gpaStep gmin gmax = gmax := by
      unfold gpaStep
      ring
    linarith
  have hlow := roundDec_mono 6 h1
  have hhigh := roundDec_mono 6 h2
  exact decide_eq_true ⟨le_trans hlo hlow, le_trans hhigh hhi⟩

theorem gridLevels_length (gmin gmax : ℚ) :
    (gridLevels gmin gmax).length = 64 := by
  unfold gridLevels
  rw [List.length_map, List.length_range]

theorem gridLevels_ne_nil (gmin gmax : ℚ) : gridLevels gmin gmax ≠ [] := by
  intro h
  have := congrArg List.length h
  rw [gridLevels_length] at this
  simp at this

theorem gridLevels_getD (gmin gmax : ℚ) (i : Nat) (h : i < 64) :
    (gridLevels gmin gmax).getD i 0
      = roundDec 6 (gmin + i * gpaStep gmin gmax) := by
  unfold gridLevels
  have hb : i < ((List.range 64).map
      (fun j : Nat => roundDec 6 (gmin + j * gpaStep gmin gmax))).length := by
    rw [List.length_map, List.length_range]
    exact h
  rw [List.getD_eq_getElem?_getD, List.getElem?_eq_getElem hb]
  simp

theorem accFrom_replicate_getD (c : ℚ) :
    ∀ (n j : Nat) (a : ℚ), j < n →
    (accFrom a (List.replicate n c)).getD j 0 = a + ((j : ℚ) + 1) * c := by
  intro n
  induction n with
  | zero => intro j a h; omega
  | succ m ih =>
    intro j a h
    rw [List.replicate_succ]
    cases j with
    | zero =>
      show ((a + c) :: accFrom (a + c) (List.replicate m c)).getD 0 0 = _
      simp
    | succ j' =>
      show ((a + c) :: accFrom (a + c) (List.replicate m c)).getD (j' + 1) 0 = _
      rw [List.getD_cons_succ, ih j' (a + c) (by omega)]
      push_cast
      ring

/-- If `x` is below every entry in `[0, hi)`, the binary search always
descends left and returns `lo`. -/
theorem bisectAux_all_lt (a : List ℚ) (x : ℚ) :
    ∀ (fuel lo hi : Nat), (∀ j, j < hi → x < a.getD j 0) →
    bisectAux a x fuel lo hi = lo := by
  intro fuel
  induction fuel with
  | zero => intro lo hi _; rfl
  | succ f ih =>
    intro lo hi hx
    simp only [bisectAux]
    by_cases hlt : lo < hi
    · rw [if_pos hlt, if_pos (hx _ (by omega))]
      exact ih lo ((lo + hi) / 2) (fun j hj => hx j (by omega))
    · rw [if_neg hlt]

theorem weights_const (allowed : List ℚ) (mean std : ℚ) (hstd : ¬ std ≤ 0) :
    allowed.map (fun g => normal_pdf (fun _ _ _ => 1) g mean std)
      = List.replicate allowed.length 1 := by
  have hfun : (fun g : ℚ => normal_pdf (fun _ _ _ => (1 : ℚ)) g mean std)
      = fun _ => (1 : ℚ) := by
    funext g
    simp [normal_pdf, hstd]
  rw [hfun, List.map_const']

/-- With the constant density and a positive σ, the probabilities are
uniform `1/len`. -/
theorem gridProbs_const (allowed : List ℚ) (mean std : ℚ)
    (hstd : ¬ std ≤ 0) (hL : allowed.length ≠ 0) :
    gridProbs (fun _ _ _ => 1) mean std allowed
      = List.replicate allowed.length (1 / (allowed.length : ℚ)) := by
  have hLpos : (0 : ℚ) < (allowed.length : ℚ) := by
    exact_mod_cast Nat.pos_of_ne_zero hL
  simp only [gridProbs, weights_const allowed mean std hstd]
  rw [List.sum_replicate, nsmul_eq_mul, mul_one]
  rw [if_neg (by linarith)]
  rw [List.sum_replicate, nsmul_eq_mul, mul_one, List.map_replicate]

/-- The counterexample run: with `gpa_min = 0.0004996`, `gpa_max = 0.095`,
one with-replacement draw under the all-zero random stream lands on grid
level 0, computed (line 41) as `round(0.0004996, 6) = 0.0005` and stored
(line 116) as `round(0.0005, 3) = 0.001`. -/
theorem generate_gpas_cex_run :
    generate_gpas (fun _ _ _ => 1) (fun _ => 0) 1 (4996 / 10000000) (19 / 200)
        none none true = Except.ok [1 / 1000] := by
  have hlvl0 : roundDec 6 ((4996 : ℚ) / 10000000 + 0 * gpaStep (4996 / 10000000) (19 / 200))
      = 1 / 2000 := by
    rw [roundDec_eval 6 _ 500 (by norm_num) (by norm_num)]
    norm_num
  have hlo6 : (4996 : ℚ) / 10000000 ≤ roundDec 6 (4996 / 10000000) := by
    rw [roundDec_eval 6 _ 500 (by norm_num) (by norm_num)]
    norm_num
  have hhi6 : roundDec 6 ((19 : ℚ) / 200) ≤ 19 / 200 := by
    rw [roundDec_eval 6 _ 95000 (by norm_num) (by norm_num)]
    norm_num
  have hall : allowedGpas0 (4996 / 10000000) (19 / 200)
      = gridLevels (4996 / 10000000) (19 / 200) :=
    allowedGpas0_all _ _ (by norm_num) hlo6 hhi6
  have hempf : (allowedGpas0 ((4996 : ℚ) / 10000000) (19 / 200)).isEmpty = false := by
    rw [hall]
    exact List.isEmpty_eq_false.mpr (gridLevels_ne_nil _ _)
  have hprobs2 : gridProbs (fun _ _ _ => 1)
      ((4996 / 10000000 + 19 / 200) / 2) ((19 / 200 - 4996 / 10000000) / 6)
      (gridLevels (4996 / 10000000) (19 / 200))
      = List.replicate 64 (1 / 64) := by
    rw [gridProbs_const _ _ _ (by norm_num)
      (by rw [gridLevels_length]; norm_num), gridLevels_length]
    norm_num
  have hemp2 : (gridLevels ((4996 : ℚ) / 10000000) (19 / 200)).isEmpty = false :=
    List.isEmpty_eq_false.mpr (gridLevels_ne_nil _ _)
  have hbis : ∀ y : ℚ, y = 0 →
      bisectRight (accumulate (List.replicate 64 ((1 : ℚ) / 64))) y 0 (64 - 1) = 0 := by
    intro y hy
    subst hy
    unfold bisectRight
    apply bisectAux_all_lt
    intro j hj
    unfold accumulate
    rw [accFrom_replicate_getD _ 64 j 0 (by omega)]
    positivity
  have hrc : randomChoices (fun _ => (0 : ℚ)) 0
      (gridLevels (4996 / 10000000) (19 / 200)) (List.replicate 64 (1 / 64)) 1
      = Except.ok ([1 / 2000], 1) := by
    have hcl : (accumulate (List.replicate 64 ((1 : ℚ) / 64))).length
        = (gridLevels ((4996 : ℚ) / 10000000) (19 / 200)).length := by
      rw [accumulate_length, gridLevels_length]
      simp
    have hne : List.replicate 64 ((1 : ℚ) / 64) ≠ [] := by simp
    have hsum : (List.replicate 64 ((1 : ℚ) / 64)).sum = 1 := by
      rw [List.sum_replicate, nsmul_eq_mul]
      norm_num
    simp only [randomChoices, hcl, ne_eq, not_true_eq_false, if_false,
      accumulate_getLast _ hne, hsum, gridLevels_length]
    rw [if_neg (by norm_num)]
    simp only [List.range_succ, List.range_zero, List.nil_append,
      List.map_cons, List.map_nil]
    rw [hbis _ (by norm_num)]
    rw [show (gridLevels ((4996 : ℚ) / 10000000) (19 / 200)).getD 0 0
          = roundDec 6 (4996 / 10000000 + 0 * gpaStep (4996 / 10000000) (19 / 200))
        from by rw [gridLevels_getD _ _ 0 (by norm_num)]; norm_num]
    rw [hlvl0]
  have hstored : roundDec 3 ((1 : ℚ) / 2000) = 1 / 1000 := by
    rw [roundDec_eval 3 _ 1 (by norm_num) (by norm_num)]
    norm_num
  simp only [generate_gpas, hall, hemp2, hprobs2, Bind.bind, Except.bind,
    Option.getD_none, hrc]
  simp [List.insertionSort, List.orderedInsert, pure, Except.pure]
  rw [show ((2000 : ℚ))⁻¹ = 1 / 2000 from by norm_num, hstored]
  norm_num

/-- **C8 counterexample**: the run above returns the score `0.001`, but the
claim's own values `round(gpa_min + i*step, 3)` for this range are
`0.000, 0.002, 0.003, …` — none is `0.001`, so the stored score lies
outside the claim's grid. -/
theorem C8_grid_membership_cex :
    generate_gpas (fun _ _ _ => 1) (fun _ => 0) 1 (4996 / 10000000) (19 / 200)
        none none true = Except.ok [1 / 1000]
    ∧ (1 : ℚ) / 1000 ∉ claimGrid (4996 / 10000000) (19 / 200) := by
  refine ⟨generate_gpas_cex_run, ?_⟩
  intro hmem
  unfold claimGrid at hmem
  rcases List.mem_map.mp hmem with ⟨i, _hi, heq⟩
  unfold roundDec at heq
  rw [div_eq_iff (by norm_num : ((10 : ℚ) ^ 3) ≠ 0)] at heq
  have heq2 := heq.trans (by norm_num : (1 : ℚ) / 1000 * 10 ^ 3 = 1)
  have hz' : ⌊((4996 : ℚ) / 10000000
      + i * gpaStep (4996 / 10000000) (19 / 200)) * 10 ^ 3 + 1 / 2⌋ = 1 := by
    exact_mod_cast heq2
  rw [Int.floor_eq_iff] at hz'
  rw [show gpaStep ((4996 : ℚ) / 10000000) (19 / 200) = 945004 / 630000000
      from by unfold gpaStep; norm_num] at hz'
  obtain ⟨hlow, hhigh⟩ := hz'
  have hlow' : (252 : ℚ) ≤ 945004 * (i : ℚ) := by
    push_cast at hlow
    linarith
  have hhigh' : (945004 : ℚ) * (i : ℚ) < 630252 := by
    push_cast at hhigh
    linarith
  have hl : (252 : ℕ) ≤ 945004 * i := by exact_mod_cast hlow'
  have hh : 945004 * i < 630252 := by exact_mod_cast hhigh'
  omega

/-- **C8 (amended)**: every score stored by the sampler (in either sampling
mode, whenever generation succeeds) equals one of the 64 *computed* grid
levels — `gpa_min + i * (gpa_max - gpa_min)/63` rounded to 6 decimals as
built on line 41 — rounded to 3 decimal places for storage. -/
theorem C8_grid_membership (pdfPos : ℚ → ℚ → ℚ → ℚ) (rng : Nat → ℚ)
    (n : Nat) (gmin gmax : ℚ) (mean? std? : Option ℚ) (wr : Bool)
    (gpas : List ℚ)
    (hok : generate_gpas pdfPos rng n gmin gmax mean? std? wr
      = Except.ok gpas) :
    ∀ g ∈ gpas, g ∈ storedGrid gmin gmax := by
  by_cases hemp : (allowedGpas0 gmin gmax).isEmpty
  · -- empty computed grid: the only successful runs return no scores
    have h0 : allowedGpas0 gmin gmax = [] := List.isEmpty_iff.mp hemp
    cases wr with
    | true =>
      exfalso
      simp only [generate_gpas, h0, List.isEmpty_nil, gridProbs_nil,
        Bind.bind, Except.bind] at hok
      -- randomChoices with empty weights but nonempty population errors
      have hcl : (accumulate ([] : List ℚ)).length
          ≠ ((List.range (max 1 n)).map
            (fun j => roundDec 3 (pyUniform (rng j) gmin gmax))).length := by
        simp [accumulate, accFrom]
        omega
      simp only [randomChoices, if_pos hcl] at hok
      all_goals exact Except.noConfusion hok
    | false =>
      simp only [generate_gpas, h0, List.isEmpty_nil, gridProbs_nil,
        Bind.bind, Except.bind] at hok
      by_cases hn : n = 0
      · subst hn
        -- loop count is min 0 _ = 0, loop returns ([], _)
        simp [samplingLoop, List.insertionSort, pure, Except.pure] at hok
        subst hok
        intro g hg
        exact absurd hg (List.not_mem_nil g)
      · exfalso
        obtain ⟨m, rfl⟩ := Nat.exists_eq_succ_of_ne_zero hn
        have hcount : min (m + 1) ((List.range (max 1 (m + 1))).map
            (fun j => roundDec 3 (pyUniform (rng j) gmin gmax))).length
            = m + 1 := by
          simp
        rw [hcount] at hok
        have hneU : ((List.range (max 1 (m + 1))).map
            (fun j => roundDec 3 (pyUniform (rng j) gmin gmax))) ≠ [] := by
          intro hx
          have hlz := congrArg List.length hx
          simp only [List.length_map, List.length_range, List.length_nil]
            at hlz
          omega
        obtain ⟨e, he⟩ := samplingLoop_empty_probs rng m (max 1 (m + 1))
          ((List.range (max 1 (m + 1))).map
            (fun j => roundDec 3 (pyUniform (rng j) gmin gmax))) [] hneU
        rw [he] at hok
        simp at hok
  · -- nonempty computed grid: all drawn values are members of it
    have hempf : (allowedGpas0 gmin gmax).isEmpty = false :=
      Bool.not_eq_true _ ▸ hemp
    simp only [generate_gpas, hempf, Bool.false_eq_true, if_false,
      Bind.bind, Except.bind] at hok
    cases wr with
    | true =>
      cases hc : randomChoices rng 0 (allowedGpas0 gmin gmax)
        (gridProbs pdfPos (mean?.getD ((gmin + gmax) / 2))
          (std?.getD ((gmax - gmin) / 6)) (allowedGpas0 gmin gmax)) n with
      | error e => rw [hc] at hok; simp at hok
      | ok out =>
        rw [hc] at hok
        obtain ⟨gs, r'⟩ := out
        simp only [pure, Except.pure] at hok
        injection hok with hok
        subst hok
        exact mem_storedGrid_of gmin gmax n gs
          (fun g hg => randomChoices_ok_mem hc g hg)
    | false =>
      cases hl : samplingLoop rng
          (min n (allowedGpas0 gmin gmax).length) 0 (allowedGpas0 gmin gmax)
          (gridProbs pdfPos (mean?.getD ((gmin + gmax) / 2))
            (std?.getD ((gmax - gmin) / 6)) (allowedGpas0 gmin gmax)) [] with
      | error e => rw [hl] at hok; simp at hok
      | ok out1 =>
        rw [hl] at hok
        obtain ⟨gs1, r1⟩ := out1
        simp only [pure, Except.pure] at hok
        have hmem1 : ∀ g ∈ gs1, g ∈ allowedGpas0 gmin gmax := by
          intro g hg
          rcases samplingLoop_ok_mem _ _ _ _ _ _ hl g hg with h | h
          · exact h
          · exact absurd h (List.not_mem_nil g)
        by_cases hlt : gs1.length < n
        · rw [if_pos hlt] at hok
          cases hx : randomChoices rng r1 (allowedGpas0 gmin gmax)
            (gridProbs pdfPos (mean?.getD ((gmin + gmax) / 2))
              (std?.getD ((gmax - gmin) / 6)) (allowedGpas0 gmin gmax))
            (n - gs1.length) with
          | error e => rw [hx] at hok; simp at hok
          | ok out2 =>
            rw [hx] at hok
            obtain ⟨gs2, r2⟩ := out2
            simp only [pure, Except.pure] at hok
            injection hok with hok
            subst hok
            refine mem_storedGrid_of gmin gmax n (gs1 ++ gs2) ?_
            intro g hg
            rcases List.mem_append.mp hg with h | h
            · exact hmem1 g h
            · exact randomChoices_ok_mem hx g h
        · rw [if_neg hlt] at hok
          injection hok with hok
          subst hok
          exact mem_storedGrid_of gmin gmax n gs1 hmem1

/-- On the range `[0, 9]` the endpoints round to themselves at 6 decimals,
so the range filter keeps every computed grid level and the filtered grid
is nonempty. -/
theorem allowedGpas0_zero_nine :
    allowedGpas0 0 9 = gridLevels 0 9 ∧ allowedGpas0 0 9 ≠ [] := by
  have heq : allowedGpas0 0 9 = gridLevels 0 9 := by
    refine allowedGpas0_all 0 9 (by norm_num) ?_ ?_
    · rw [roundDec_eval 6 0 0 (by norm_num) (by norm_num)]
      norm_num
    · rw [roundDec_eval 6 9 9000000 (by norm_num) (by norm_num)]
      norm_num
  exact ⟨heq, heq ▸ gridLevels_ne_nil 0 9⟩

/-- Witness for the amended C8: the stored score `0.001` of the concrete
counterexample run is a member of the computed-then-rounded grid. -/
theorem C8_grid_membership_witness :
    (1 : ℚ) / 1000 ∈ storedGrid (4996 / 10000000) (19 / 200) :=
  C8_grid_membership (fun _ _ _ => 1) (fun _ => 0) 1 (4996 / 10000000)
    (19 / 200) none none true [1 / 1000] generate_gpas_cex_run
    (1 / 1000) (by simp)

/-- **C9**: when the Gaussian density evaluated over the (nonempty) grid
sums to ≤ 0 (e.g. `std ≤ 0`), the sampler silently substitutes uniform
weights over the grid: the probabilities become `1/len` each, nonnegative
and summing to 1, and generation still succeeds (no exception), in both
sampling modes, for any population size and random stream. -/
theorem C9_degenerate_density (pdfPos : ℚ → ℚ → ℚ → ℚ)
    (mean std gmin gmax : ℚ)
    (hne : allowedGpas0 gmin gmax ≠ [])
    (hsum : ((allowedGpas0 gmin gmax).map
        (fun g => normal_pdf pdfPos g mean std)).sum ≤ 0) :
    gridProbs pdfPos mean std (allowedGpas0 gmin gmax)
        = List.replicate (allowedGpas0 gmin gmax).length
            (1 / ((allowedGpas0 gmin gmax).length : ℚ))
    ∧ (gridProbs pdfPos mean std (allowedGpas0 gmin gmax)).sum = 1
    ∧ (∀ p ∈ gridProbs pdfPos mean std (allowedGpas0 gmin gmax), 0 ≤ p)
    ∧ (∀ (wr : Bool) (n : Nat) (rng : Nat → ℚ),
        ∃ gs, generate_gpas pdfPos rng n gmin gmax (some mean) (some std) wr
          = Except.ok gs) := by
  have hrep := gridProbs_degenerate pdfPos mean std (allowedGpas0 gmin gmax) hsum
  have hlpos : 0 < (allowedGpas0 gmin gmax).length := List.length_pos.mpr hne
  have hsum1 : (gridProbs pdfPos mean std (allowedGpas0 gmin gmax)).sum = 1 := by
    rw [hrep, List.sum_replicate, nsmul_eq_mul, mul_one_div]
    exact div_self (by exact_mod_cast hlpos.ne')
  have hlen0 : (gridProbs pdfPos mean std (allowedGpas0 gmin gmax)).length
      = (allowedGpas0 gmin gmax).length :=
    gridProbs_length pdfPos mean std (allowedGpas0 gmin gmax)
  have hprobs_ne : gridProbs pdfPos mean std (allowedGpas0 gmin gmax) ≠ [] := by
    intro hx
    have hlz := congrArg List.length hx
    rw [hlen0, List.length_nil] at hlz
    exact hne (List.length_eq_zero.mp hlz)
  have hsum_pos : 0 < (gridProbs pdfPos mean std (allowedGpas0 gmin gmax)).sum := by
    rw [hsum1]; norm_num
  refine ⟨hrep, hsum1, ?_, ?_⟩
  · intro p hp
    rw [hrep] at hp
    have hpv := List.eq_of_mem_replicate hp
    subst hpv
    positivity
  · intro wr n rng
    have hempf : (allowedGpas0 gmin gmax).isEmpty = false :=
      List.isEmpty_eq_false.mpr hne
    simp only [generate_gpas, hempf, Bool.false_eq_true, if_false,
      Option.getD_some, Bind.bind, Except.bind]
    cases wr with
    | true =>
      obtain ⟨out, hout⟩ := randomChoices_isOk rng 0 (allowedGpas0 gmin gmax)
        (gridProbs pdfPos mean std (allowedGpas0 gmin gmax)) n hlen0
        hprobs_ne hsum_pos
      rw [hout]
      obtain ⟨gs, r'⟩ := out
      exact ⟨_, rfl⟩
    | false =>
      obtain ⟨out1, hout1⟩ := @samplingLoop_isOk rng
        (min n (allowedGpas0 gmin gmax).length) 0 (allowedGpas0 gmin gmax)
        (gridProbs pdfPos mean std (allowedGpas0 gmin gmax)) []
        (min_le_right n _) hlen0.symm
      obtain ⟨gs1, r1⟩ := out1
      rw [hout1]
      simp only [pure, Except.pure]
      by_cases hlt : gs1.length < n
      · rw [if_pos hlt]
        obtain ⟨out2, hout2⟩ := randomChoices_isOk rng r1
          (allowedGpas0 gmin gmax)
          (gridProbs pdfPos mean std (allowedGpas0 gmin gmax))
          (n - gs1.length) hlen0 hprobs_ne hsum_pos
        obtain ⟨gs2, r2⟩ := out2
        rw [hout2]
        exact ⟨_, rfl⟩
      · rw [if_neg hlt]
        exact ⟨_, rfl⟩

/-- Witness for C9 at a concrete degenerate configuration (`std = 0`). -/
theorem C9_degenerate_density_witness :
    (gridProbs (fun _ _ _ => 1) 0 0 (allowedGpas0 0 9)).sum = 1 :=
  (C9_degenerate_density (fun _ _ _ => 1) 0 0 0 9 allowedGpas0_zero_nine.2
    (by
      refine le_of_eq (List.sum_eq_zero ?_)
      intro x hx
      rcases List.mem_map.mp hx with ⟨g, hg, rfl⟩
      simp [normal_pdf])).2.1

end SpecAlloc
